import Mathlib

/-!
Verification development for the llm-metadata-describer repository.

The repository annotates a catalog of analytical-model entities (datasets,
attributes, facts, labels, date instances, metrics, visualization objects,
dashboards) with descriptions produced by an external text-generation
service, caching them in a `descriptions` mapping so reruns are incremental.

This file gives a shallow embedding of the core engine:
- `Val` models YAML/JSON document values (strings, mappings, sequences);
  numeric or boolean scalars do not occur in the code paths under study.
- The reference extractors (`extract_ids_from_maql`,
  `extract_ids_from_visualization_object`, `extract_ids_from_dashboard`)
  are translated from src/utils.py, src/yaml_processor.py and
  src/prompt_utils.py.
- The prompt builder (`generate_prompt`) is translated from
  src/prompt_utils.py.
- The annotation engine (`update_element_description`, `process_file`,
  `run_phase`, `generate_descriptions`) is translated from
  src/yaml_processor.py; the external text-generation service is a
  parameter `llm : String → String` (deterministic prompt → response).
- `ld_update_description` is the per-entity update path of the
  src/llm_descriptor.py variant, which raises `ValueError` on a missing id;
  Python exceptions are modelled with `Except String`.

File access, logging and the remote-catalog step are external collaborators
and are not modelled; a "run" takes the already-materialized document tree
as input and returns the rewritten tree and the final description cache.
-/

/-- YAML/JSON values as they occur in the processed documents. -/
inductive Val where
  | str : String → Val
  | obj : List (String × Val) → Val
  | arr : List Val → Val
deriving Repr

/-- A loaded YAML document (a Python dict): an insertion-ordered
association list, keys unique in practice. -/
abbrev Element := List (String × Val)

/-- `d.get(key)` / `d[key]` lookup on a dict (first matching key). -/
def lookupField : Element → String → Option Val
  | [], _ => none
  | (k, v) :: rest, key => if k = key then some v else lookupField rest key

/-- `d[key] = v` on a dict: replace the value in place if the key is
present (Python dicts keep insertion order), otherwise append. -/
def setField : Element → String → Val → Element
  | [], key, v => [(key, v)]
  | (k, w) :: rest, key, v =>
      if k = key then (key, v) :: rest else (k, w) :: setField rest key v

/-- The description cache `descriptions_dict`: entity id → description.
The key is `Option String` because `element.get('id')` yields `None` for a
document without an `id` field, and `None` is a legal Python dict key. -/
abbrev Cache := List (Option String × String)

/-- Cache lookup (`descriptions_dict.get(k)` / `k in descriptions_dict`). -/
def lookupCache : Cache → Option String → Option String
  | [], _ => none
  | (k, v) :: rest, key => if k = key then some v else lookupCache rest key

/-- Cache assignment `descriptions_dict[k] = v`. -/
def setCache : Cache → Option String → String → Cache
  | [], key, v => [(key, v)]
  | (k, w) :: rest, key, v =>
      if k = key then (key, v) :: rest else (k, w) :: setCache rest key v

/-- The dict key used for an element: the string value of its `id` field,
`none` when the field is absent.  (A non-string `id` value would not be a
usable dict key in the Python code; such documents do not occur.) -/
def getIdKey (e : Element) : Option String :=
  match lookupField e "id" with
  | some (.str s) => some s
  | _ => none

/-! ## Reference Extractor: the query-expression micro-language

`extract_ids_from_maql` (src/utils.py lines 5-8, duplicated in
src/yaml_processor.py lines 15-18) applies the regular expression
`\b(fact|attribute|metric|label|dataset)/([a-zA-Z0-9_]+)\b` with
`re.findall` and rebuilds each match as `"<category>/<name>"`.

The scanner below replicates `re.findall` for this pattern: it tries each
position left to right; a match requires a word boundary before the
category (the previous character, if any, is not a word character), one of
the five category words, a `/`, and a maximal nonempty run of word
characters as the name (the trailing `\b` is then automatic); matching is
non-overlapping, resuming after each match.  The five category words share
no first letter, so the regex alternation is deterministic. -/

/-- Word characters of the pattern: `[a-zA-Z0-9_]` (and Python `\b`). -/
def isWordChar (c : Char) : Bool := c.isAlpha || c.isDigit || c == '_'

/-- The five reference categories, in the alternation order of the regex. -/
def categories : List String := ["fact", "attribute", "metric", "label", "dataset"]

/-- Try the category alternation at the current position. -/
def matchCat : List String → List Char → Option (String × List Char)
  | [], _ => none
  | cat :: rest, cs =>
      if cat.toList.isPrefixOf cs then some (cat, cs.drop cat.length)
      else matchCat rest cs

/-- Attempt one regex match at the current position (the boundary before
it already checked): a category word, a `/`, and a maximal nonempty run
of word characters; returns the rebuilt token and the rest of the input. -/
def tryMatch (cs : List Char) : Option (String × List Char) :=
  match matchCat categories cs with
  | some (cat, rest) =>
      match rest with
      | '/' :: rest2 =>
          let name := rest2.takeWhile isWordChar
          if name.isEmpty then none
          else some (cat ++ "/" ++ String.mk name, rest2.dropWhile isWordChar)
      | _ => none
  | none => none

/-- One left-to-right scan of the character list.  `prevWord` records
whether the previous character was a word character (no word boundary).
A failed position advances one character; a match resumes after the
matched token (non-overlapping, like `re.findall`).  `fuel` bounds the
recursion; every step consumes at least one character, so `length + 1`
fuel suffices. -/
def scanMaql : Nat → Bool → List Char → List String
  | 0, _, _ => []
  | _ + 1, _, [] => []
  | fuel + 1, prevWord, c :: cs =>
      if prevWord then
        scanMaql fuel (isWordChar c) cs
      else
        match tryMatch (c :: cs) with
        | some (tok, rest3) => tok :: scanMaql fuel true rest3
        | none => scanMaql fuel (isWordChar c) cs

/-- `extract_ids_from_maql` (src/utils.py lines 5-8). -/
def extract_ids_from_maql (maql : String) : List String :=
  scanMaql (maql.length + 1) false maql.toList

/-- Python `s.startswith(p)`, modelled on the character lists. -/
def pyStartsWith (s p : String) : Bool := p.toList.isPrefixOf s.toList

/-- `YAMLProcessor.has_metric_references` (src/yaml_processor.py lines
207-211): any extracted id starts with `"metric/"`. -/
def has_metric_references (maql : String) : Bool :=
  (extract_ids_from_maql maql).any (fun r => pyStartsWith r "metric/")

example : extract_ids_from_maql "metric/total_sales + fact/unit_price - metric/discount" =
    ["metric/total_sales", "fact/unit_price", "metric/discount"] := by decide

example : has_metric_references "fact/unit_price * attribute/region" = false := by decide

/-! ## Prompt Builder (src/prompt_utils.py)

`generate_prompt(data, description_type, descriptions_dict, extracted_ids)`
(src/prompt_utils.py lines 7-66) interpolates document fields into one of
four f-string templates.  Interpolated fields are strings in every document
the engine produces; `pyStr` renders the interpolated value (a non-string
value would be rendered by Python's `str`, approximated structurally). -/

mutual

/-- Rendering of a value interpolated into an f-string. -/
def pyStr : Val → String
  | .str s => s
  | .obj fs => "\x7b" ++ pyStrFields fs ++ "\x7d"
  | .arr vs => "[" ++ pyStrElems vs ++ "]"

def pyStrFields : List (String × Val) → String
  | [] => ""
  | [(k, v)] => k ++ ": " ++ pyStr v
  | (k, v) :: rest => k ++ ": " ++ pyStr v ++ ", " ++ pyStrFields rest

def pyStrElems : List Val → String
  | [] => ""
  | [v] => pyStr v
  | v :: rest => pyStr v ++ ", " ++ pyStrElems rest

end

/-- `data.get(key, '')`, then f-string interpolation. -/
def getStrField (e : Element) (key : String) : String :=
  match lookupField e key with
  | some v => pyStr v
  | none => ""

/-- `data.get(k1, \x7b\x7d).get(k2, '')`: nested lookup with dict and
empty-string defaults (a non-dict value under `k1` would raise in Python;
it does not occur in the documents the engine processes). -/
def getNestedStr (e : Element) (k1 k2 : String) : String :=
  match lookupField e k1 with
  | some (.obj fs) => getStrField fs k2
  | _ => ""

/-- The per-reference context block of src/prompt_utils.py lines 11-12:
`"\n".flatten(f"(id): (descriptions_dict.get(id, 'No description available'))")`. -/
def contextString (cache : Cache) (ids : List String) : String :=
  String.intercalate "\n"
    (ids.map fun i => i ++ ": " ++ ((lookupCache cache (some i)).getD "No description available"))

/-- `generate_prompt` (src/prompt_utils.py lines 7-66). -/
def generate_prompt (data : Element) (dtype : String) (cache : Cache)
    (extractedIds : List String) : String :=
  let title := getStrField data "title"
  let elementId := getStrField data "id"
  let context := contextString cache extractedIds
  if dtype = "metric" ∨ dtype = "non-metric" then
    let maql := getNestedStr data "content" "maql"
    "Generate a concise business-relevant description for a " ++ dtype ++
      ". This is a metric, not a dataset. The description should focus on what the metric measures or calculates " ++
      "based on the MAQL (Metric Aggregation Query Language) provided. Do not describe it as a dataset. " ++
      "It might be composed of a dataset, but it is operating on top of it. " ++
      "Ensure the description highlights the key insights or value this metric provides, " ++
      "without technical jargon or irrelevant details. The description should fit within 128 characters.\n" ++
      "Title: " ++ title ++ "\n" ++
      "ID: " ++ elementId ++ "\n" ++
      "MAQL: " ++ maql ++ "\n"
  else if dtype = "visualization object" then
    let visualizationUrl := getStrField data "visualizationUrl"
    "Generate a descriptive text for a " ++ dtype ++ " with a business meaning " ++
      "so I can find it with various similarity search algorithms. " ++
      "Do not describe the fields themselves. " ++
      "Without any single or double quotes in the beginning and at the end " ++
      "Do not mention visualization id. " ++
      "The documentation must fit into 128 characters based on the following details:\n" ++
      "Title: " ++ title ++ "\n" ++
      "ID: " ++ elementId ++ "\n" ++
      "Visualization URL: " ++ visualizationUrl ++ "\n" ++
      "Context:\n" ++ context ++ "\n"
  else if dtype = "dashboard" then
    "Generate a descriptive text for a " ++ dtype ++ " with a business meaning " ++
      "so I can find it with various similarity search algorithms. " ++
      "Do not describe the fields themselves. " ++
      "Without any single or double quotes in the beginning and at the end. " ++
      "The description must fit within 256 characters based on the following details:\n" ++
      "Title: " ++ title ++ "\n" ++
      "ID: " ++ elementId ++ "\n" ++
      "Context:\n" ++ context ++ "\n"
  else
    "Generate a descriptive text with business meaning for a " ++ dtype ++ ". " ++
      "Do not describe the fields themselves. " ++
      "Without any single or double quotes in the beginning and at the end. " ++
      "The documentation must fit into 128 characters based on the following details:\n" ++
      "Title: " ++ title ++ "\n" ++
      "ID: " ++ elementId ++ "\n"

/-! ## Validation and the per-entity update path (src/yaml_processor.py) -/

/-- Python `needle in haystack` on strings (contiguous substring test). -/
def listContainsSub (pat : List Char) : List Char → Bool
  | [] => pat.isEmpty
  | c :: cs => pat.isPrefixOf (c :: cs) || listContainsSub pat cs

/-- Python `needle in haystack` for strings. -/
def pyInStr (pat hay : String) : Bool := listContainsSub pat.toList hay.toList

/-- Python `s.lower()`, character by character (ASCII in practice). -/
def pyLower (s : String) : String := String.mk (s.toList.map Char.toLower)

/-- `YAMLProcessor.validate_metric_description` (src/yaml_processor.py
lines 160-161): `"dataset" not in description.lower()`. -/
def validate_metric_description (description : String) : Bool :=
  !(pyInStr "dataset" (pyLower description))

/-- `YAMLProcessor._update_element_description` (src/yaml_processor.py
lines 141-158).  The external generation service is `llm : String →
String`.  Returns the (possibly) updated element, the (possibly) extended
cache, and whether a generation call was issued (`False` on the cache-hit
path).  `extracted_ids or []` is reflected by callers passing `[]`. -/
def update_element_description (llm : String → String) (element : Element)
    (etype : String) (extractedIds : List String) (cache : Cache) :
    Element × Cache × Bool :=
  let elementId := getIdKey element
  match lookupCache cache elementId with
  | some d => (setField element "description" (.str d), cache, false)
  | none =>
      let prompt := generate_prompt element etype cache extractedIds
      let description := llm prompt
      if description ≠ "" ∧ (etype ≠ "metric" ∨ validate_metric_description description = true) then
        (setField element "description" (.str description),
         setCache cache elementId description, true)
      else
        (element, cache, true)

example :
    update_element_description (fun _ => "d") [("id", .str "fact/f")] "fact" [] [] =
      ([("id", .str "fact/f"), ("description", .str "d")], [(some "fact/f", "d")], true) := rfl

example :
    update_element_description (fun _ => "d") [("id", .str "fact/f")] "fact" []
        [(some "fact/f", "old")] =
      ([("id", .str "fact/f"), ("description", .str "old")], [(some "fact/f", "old")], false) := rfl

/-! ## Reference Extractor: the visual-query-object structure

Python raises `KeyError` / `AttributeError` / `TypeError` on malformed
shapes when it subscripts strictly; `.get` chains with defaults never
raise.  Exceptions are modelled with `Except String`. -/

/-- Key-presence test `key in d`. -/
def containsKey (e : Element) (key : String) : Bool := (lookupField e key).isSome

/-- `d.get(key, [])` followed by iteration: absent gives `[]`, a sequence
gives its elements, any other value raises `TypeError` when iterated. -/
def getListD (e : Element) (key : String) : Except String (List Val) :=
  match lookupField e key with
  | none => .ok []
  | some (.arr vs) => .ok vs
  | some _ => .error "TypeError: value is not a list"

/-- `d.get(key, dict())` followed by attribute access on the result:
absent gives the empty dict; a non-dict value raises `AttributeError`. -/
def getObjD (e : Element) (key : String) : Except String Element :=
  match lookupField e key with
  | none => .ok []
  | some (.obj fs) => .ok fs
  | some _ => .error "AttributeError: value is not a dict"

/-- Treat a sequence element as a dict (`bucket.get`, `item.get`, ...). -/
def asObj : Val → Except String Element
  | .obj fs => .ok fs
  | _ => .error "AttributeError: value is not a dict"

/-- Strict subscription `d[key]`: `KeyError` when absent. -/
def getKey (e : Element) (key : String) : Except String Val :=
  match lookupField e key with
  | some v => .ok v
  | none => .error ("KeyError: " ++ key)

/-- Strict subscription expecting a dict value. -/
def getKeyObj (e : Element) (key : String) : Except String Element := do
  match ← getKey e key with
  | .obj fs => pure fs
  | _ => .error "TypeError: value is not a dict"

/-- Strict subscription expecting a sequence value. -/
def getKeyArr (e : Element) (key : String) : Except String (List Val) := do
  match ← getKey e key with
  | .arr vs => pure vs
  | _ => .error "TypeError: value is not a list"

/-- Strict subscription expecting a textual identifier. -/
def getKeyStr (e : Element) (key : String) : Except String String := do
  match ← getKey e key with
  | .str s => pure s
  | _ => .error "TypeError: identifier is not a string"

/-- The per-item measure handling of `extract_ids_from_visualization_object`
(src/yaml_processor.py lines 24-32): a direct `measureDefinition` emits the
referenced identifier; a `previousPeriodMeasure` emits each date-dataset
identifier, then the identifier of the measure it derives from; an item
with neither shape emits nothing. -/
def extractItemIds (item : Element) : Except String (List String) := do
  let measure ← getObjD item "measure"
  let definition ← getObjD measure "definition"
  if containsKey definition "measureDefinition" then
    let md ← getKeyObj definition "measureDefinition"
    let it ← getKeyObj md "item"
    let ident ← getKeyObj it "identifier"
    let i ← getKeyStr ident "id"
    pure [i]
  else if containsKey definition "previousPeriodMeasure" then
    let ppm ← getKeyObj definition "previousPeriodMeasure"
    let dds ← getKeyArr ppm "dateDataSets"
    let dateIds ← dds.mapM (fun dd => do
      let ddo ← asObj dd
      let ds ← getKeyObj ddo "dataSet"
      let ident ← getKeyObj ds "identifier"
      getKeyStr ident "id")
    let mi ← getKeyStr ppm "measureIdentifier"
    pure (dateIds ++ [mi])
  else
    pure []

/-- `extract_ids_from_visualization_object` (src/yaml_processor.py lines
21-38; the same walk appears in src/prompt_utils.py lines 69-112 and in
src/llm_descriptor.py lines 19-36): bucket items in document order, then
relative-date filters.  The `descriptions_dict` parameter of the
yaml_processor/prompt_utils variants is used only for logging. -/
def extract_ids_from_visualization_object (content : Element) :
    Except String (List String) := do
  let buckets ← getListD content "buckets"
  let bucketIds ← buckets.mapM (fun b => do
    let bo ← asObj b
    let items ← getListD bo "items"
    let perItem ← items.mapM (fun it => do
      let io ← asObj it
      extractItemIds io)
    pure perItem.flatten)
  let filters ← getListD content "filters"
  let filterIds ← filters.mapM (fun f => do
    let fo ← asObj f
    if containsKey fo "relativeDateFilter" then
      let rdf ← getKeyObj fo "relativeDateFilter"
      let ds ← getKeyObj rdf "dataSet"
      let ident ← getKeyObj ds "identifier"
      let i ← getKeyStr ident "id"
      pure [i]
    else
      pure [])
  pure (bucketIds.flatten ++ filterIds.flatten)

/-- `extract_ids_from_dashboard` (src/prompt_utils.py lines 115-149; this
is the variant the engine imports): per widget, the insight identifier
then every drill-target identifier, in document order; a falsy (absent or
empty) identifier is skipped.  The `descriptions_dict` parameter is used
only for logging. -/
def extract_ids_from_dashboard (layout : Element) : Except String (List String) := do
  let sections ← getListD layout "sections"
  let perSection ← sections.mapM (fun s => do
    let so ← asObj s
    let items ← getListD so "items"
    let perItem ← items.mapM (fun it => do
      let io ← asObj it
      let widget ← getObjD io "widget"
      let insight ← getObjD widget "insight"
      let ident ← getObjD insight "identifier"
      let insightIds :=
        match lookupField ident "id" with
        | some (.str s) => if s ≠ "" then [s] else []
        | _ => []
      let drills ← getListD widget "drills"
      let drillIds ← drills.mapM (fun d => do
        let dro ← asObj d
        let tgt ← getObjD dro "target"
        let ident2 ← getObjD tgt "identifier"
        pure (match lookupField ident2 "id" with
          | some (.str s) => if s ≠ "" then [s] else []
          | _ => []))
      pure (insightIds ++ drillIds.flatten))
    pure perItem.flatten)
  pure perSection.flatten

/-! ## Phase Scheduler / Annotation Engine (src/yaml_processor.py)

`Event` records one call to `_update_element_description`: the element
type, the entity's dict key, whether a generation call was issued, and the
cache state at the moment of the call.  Events let the temporal claims
about phase ordering be stated on the trace of a run. -/

structure Event where
  etype : String
  key : Option String
  genCalled : Bool
  cacheAt : Cache
deriving Repr, DecidableEq

/-- One `_update_element_description` call, together with its event. -/
def stepElement (llm : String → String) (element : Element) (etype : String)
    (extractedIds : List String) (cache : Cache) : Element × Cache × List Event :=
  let r := update_element_description llm element etype extractedIds cache
  (r.1, r.2.1, [⟨etype, getIdKey element, r.2.2, cache⟩])

/-- Update one nested element (a label or a fact); a non-dict entry would
raise in Python and does not occur in materialized documents. -/
def processValElem (llm : String → String) (etype : String) (v : Val) (cache : Cache) :
    Val × Cache × List Event :=
  match v with
  | .obj fs =>
      let r := stepElement llm fs etype [] cache
      (.obj r.1, r.2.1, r.2.2)
  | other => (other, cache, [])

/-- Sequential update of a list of nested elements. -/
def processVals (llm : String → String) (etype : String) :
    List Val → Cache → List Val × Cache × List Event
  | [], cache => ([], cache, [])
  | v :: rest, cache =>
      let r := processValElem llm etype v cache
      let rr := processVals llm etype rest r.2.1
      (r.1 :: rr.1, rr.2.1, r.2.2 ++ rr.2.2)

/-- One optional nested stage of the dataset walk: when `key` holds a
list in `e`, run `f` over its elements and store the updated list back
(Python mutates these nested dicts in place).  When the key is absent
nothing happens; a non-list value would raise in Python and does not
occur in materialized documents. -/
def nestedListStage (f : List Val → Cache → List Val × Cache × List Event)
    (e : Element) (key : String) (c : Cache) : Element × Cache × List Event :=
  match lookupField e key with
  | some (.arr vs) =>
      let r := f vs c
      (setField e key (.arr r.1), r.2.1, r.2.2)
  | _ => (e, c, [])

/-- One attribute of a dataset document: update the attribute, then each
of its labels when a `labels` list is present (src/yaml_processor.py
lines 96-102); see `nestedListStage` below for the nested stage. -/
def processAttribute (llm : String → String) (v : Val) (cache : Cache) :
    Val × Cache × List Event :=
  match v with
  | .obj attr =>
      let r1 := stepElement llm attr "attribute" [] cache
      let r2 := nestedListStage (processVals llm "label") r1.1 "labels" r1.2.1
      (.obj r2.1, r2.2.1, r1.2.2 ++ r2.2.2)
  | other => (other, cache, [])

/-- Sequential update of the attribute list. -/
def processAttrs (llm : String → String) :
    List Val → Cache → List Val × Cache × List Event
  | [], cache => ([], cache, [])
  | v :: rest, cache =>
      let r := processAttribute llm v cache
      let rr := processAttrs llm rest r.2.1
      (r.1 :: rr.1, rr.2.1, r.2.2 ++ rr.2.2)

/-- `YAMLProcessor._process_dataset` (src/yaml_processor.py lines 93-106):
the dataset itself, then each attribute with its labels, then the facts. -/
def process_dataset (llm : String → String) (data : Element) (cache : Cache) :
    Element × Cache × List Event :=
  let r1 := stepElement llm data "dataset" [] cache
  let r2 := nestedListStage (processAttrs llm) r1.1 "attributes" r1.2.1
  let r3 := nestedListStage (processVals llm "fact") r2.1 "facts" r2.2.1
  (r3.1, r3.2.1, r1.2.2 ++ (r2.2.2 ++ r3.2.2))

/-- `YAMLProcessor._process_non_metric` (src/yaml_processor.py lines
108-111): update only if the expression has no metric reference. -/
def process_non_metric (llm : String → String) (data : Element) (cache : Cache) :
    Element × Cache × List Event :=
  let maql := getNestedStr data "content" "maql"
  if has_metric_references maql then (data, cache, [])
  else stepElement llm data "non-metric" [] cache

/-- `YAMLProcessor._process_metric` (src/yaml_processor.py lines 113-116):
update only if the expression has at least one metric reference. -/
def process_metric (llm : String → String) (data : Element) (cache : Cache) :
    Element × Cache × List Event :=
  let maql := getNestedStr data "content" "maql"
  if has_metric_references maql then stepElement llm data "metric" [] cache
  else (data, cache, [])

/-- `YAMLProcessor._process_visualization_object` (lines 118-120). -/
def process_visualization_object (llm : String → String) (data : Element) (cache : Cache) :
    Except String (Element × Cache × List Event) := do
  let content ← getObjD data "content"
  let ids ← extract_ids_from_visualization_object content
  pure (stepElement llm data "visualization object" ids cache)

/-- `YAMLProcessor._process_dashboard` (lines 122-136). -/
def process_dashboard (llm : String → String) (data : Element) (cache : Cache) :
    Except String (Element × Cache × List Event) := do
  let content ← getObjD data "content"
  let layout ← getObjD content "layout"
  let ids ← extract_ids_from_dashboard layout
  pure (stepElement llm data "dashboard" ids cache)

/-- Python truthiness of the loaded document: `if not data: return`
skips an unreadable (`None`) or empty document. -/
def isFalsyDoc : Option Element → Bool
  | none => true
  | some [] => true
  | some (_ :: _) => false

/-- `YAMLProcessor.process_file` (src/yaml_processor.py lines 72-91):
dispatch on the file type, then `save_yaml_file` unconditionally.  The
returned `Bool` records whether the document was written back to storage;
an unreadable or empty document is skipped without a write.  A file type
outside the six phases falls through the `elif` chain unprocessed but is
still written. -/
def process_doc (llm : String → String) (ftype : String) (d : Element) (cache : Cache) :
    Except String (Element × Cache × List Event) :=
  if ftype = "dataset" then .ok (process_dataset llm d cache)
  else if ftype = "date instance" then .ok (stepElement llm d "date instance" [] cache)
  else if ftype = "non-metric" then .ok (process_non_metric llm d cache)
  else if ftype = "metric" then .ok (process_metric llm d cache)
  else if ftype = "visualization object" then process_visualization_object llm d cache
  else if ftype = "dashboard" then process_dashboard llm d cache
  else .ok (d, cache, [])

def process_file (llm : String → String) (ftype : String) (data : Option Element)
    (cache : Cache) : Except String (Option Element × Cache × Bool × List Event) :=
  if isFalsyDoc data then .ok (data, cache, false, [])
  else
    match data with
    | none => .ok (none, cache, false, [])
    | some d =>
        (process_doc llm ftype d cache).map fun r => (some r.1, r.2.1, true, r.2.2)

/-- `YAMLProcessor.process_files_in_batches` (src/yaml_processor.py lines
62-70): the batching splits the file list into fixed-size groups but
processes every file sequentially in order, so it is modelled as one
sequential pass. -/
def run_phase (llm : String → String) (ftype : String) :
    List (Option Element) → Cache → Except String (List (Option Element) × Cache × List Event)
  | [], cache => .ok ([], cache, [])
  | d :: rest, cache => do
      let (d2, c2, _, ev) ← process_file llm ftype d cache
      let (rest2, c3, evs) ← run_phase llm ftype rest c2
      pure (d2 :: rest2, c3, ev ++ evs)

/-- The materialized document tree, one list per directory glob.  The
`non-metric` and `metric` phases enumerate the same metric directory, so
they share the `metrics` list; phase 4 re-reads the files phase 3 wrote. -/
structure DocTree where
  dateInstances : List (Option Element)
  datasets : List (Option Element)
  metrics : List (Option Element)
  visualizations : List (Option Element)
  dashboards : List (Option Element)
deriving Repr

/-- Result of a full run: the rewritten tree, the final cache (persisted
to `descriptions.yaml` by `save_descriptions`), and the event trace of
each of the six phases. -/
structure RunOut where
  tree : DocTree
  cache : Cache
  t1 : List Event
  t2 : List Event
  t3 : List Event
  t4 : List Event
  t5 : List Event
  t6 : List Event
deriving Repr

/-- `YAMLProcessor.generate_descriptions` (src/yaml_processor.py lines
52-60): the six phases in their fixed order.  The preparatory
`store_current_layout` call and the final `save_descriptions` write are
external collaborator operations; the returned cache is the mapping that
`save_descriptions` persists. -/
def generate_descriptions (llm : String → String) (tree : DocTree) (cache : Cache) :
    Except String RunOut := do
  let (di, c1, e1) ← run_phase llm "date instance" tree.dateInstances cache
  let (ds, c2, e2) ← run_phase llm "dataset" tree.datasets c1
  let (m1, c3, e3) ← run_phase llm "non-metric" tree.metrics c2
  let (m2, c4, e4) ← run_phase llm "metric" m1 c3
  let (vz, c5, e5) ← run_phase llm "visualization object" tree.visualizations c4
  let (db, c6, e6) ← run_phase llm "dashboard" tree.dashboards c5
  pure ⟨⟨di, ds, m2, vz, db⟩, c6, e1, e2, e3, e4, e5, e6⟩

/-- The full event trace of a run, phases in execution order. -/
def fullTrace (r : RunOut) : List Event :=
  r.t1 ++ r.t2 ++ r.t3 ++ r.t4 ++ r.t5 ++ r.t6

/-! ## The llm_descriptor variant (src/llm_descriptor.py)

`YAMLProcessor._update_description` (src/llm_descriptor.py lines 240-262)
is the per-entity update path of this variant; unlike
`_update_element_description` it raises `ValueError` when the document has
no (or a falsy) `id`. -/

/-- Python truthiness of an optional field value (`if not element_id`). -/
def isFalsyVal : Option Val → Bool
  | none => true
  | some (.str s) => s = ""
  | some (.obj fs) => fs.isEmpty
  | some (.arr vs) => vs.isEmpty

/-- `data.get(key)` with no default, then f-string interpolation:
an absent field renders as `"None"`. -/
def getStrOrNone (e : Element) (key : String) : String :=
  match lookupField e key with
  | some v => pyStr v
  | none => "None"

/-- `extract_ids_from_dashboard` of src/llm_descriptor.py (lines 39-48):
only insight identifiers, via a strict `['identifier']['id']` access
guarded by `'identifier' in insight`. -/
def ld_extract_ids_from_dashboard (layout : Element) : Except String (List String) := do
  let sections ← getListD layout "sections"
  let perSection ← sections.mapM (fun s => do
    let so ← asObj s
    let items ← getListD so "items"
    let perItem ← items.mapM (fun it => do
      let io ← asObj it
      let widget ← getObjD io "widget"
      let insight ← getObjD widget "insight"
      if containsKey insight "identifier" then
        let ident ← getKeyObj insight "identifier"
        let i ← getKeyStr ident "id"
        pure [i]
      else
        pure [])
    pure perItem.flatten)
  pure perSection.flatten

/-- `YAMLProcessor._generate_prompt` (src/llm_descriptor.py lines 264-323). -/
def ld_generate_prompt (data : Element) (dtype : String) (cache : Cache) :
    Except String String :=
  if dtype = "metric" then
    let maql := getNestedStr data "content" "maql"
    let format := getNestedStr data "content" "format"
    .ok ("Generate a descriptive text for a " ++ dtype ++ " with business meaning for ecommerce-solution " ++
      "so I can find it with various similarity search algorithms. " ++
      "Do not describe the fields themselves. " ++
      "Without any single or double quotes in the beginning and at the end " ++
      "The documentation must fit into 256 characters based on the following details:\n" ++
      "Title: " ++ getStrOrNone data "title" ++ "\n" ++
      "ID: " ++ getStrOrNone data "id" ++ "\n" ++
      "MAQL: " ++ maql ++ "\n" ++
      "Format: " ++ format ++ "\n")
  else if dtype = "visualization object" then do
    let content ← getObjD data "content"
    let visualizationUrl := getStrField data "visualizationUrl"
    let title := getStrField data "title"
    let extractedIds ← extract_ids_from_visualization_object content
    let context := contextString cache extractedIds
    pure ("Generate a descriptive text for a " ++ dtype ++ " with business meaning for ecommerce-solution " ++
      "so I can find it with various similarity search algorithms. " ++
      "Do not describe the fields themselves. " ++
      "Without any single or double quotes in the beginning and at the end " ++
      "The documentation must fit into 256 characters based on the following details:\n" ++
      "Title: " ++ title ++ "\n" ++
      "ID: " ++ getStrOrNone data "id" ++ "\n" ++
      "Visualization URL: " ++ visualizationUrl ++ "\n" ++
      "Context:\n" ++ context ++ "\n")
  else if dtype = "analytical dashboard" then do
    let layout ← getObjD data "layout"
    let title := getStrField data "title"
    let extractedIds ← ld_extract_ids_from_dashboard layout
    let context := contextString cache extractedIds
    pure ("Generate a descriptive text for an " ++ dtype ++ " with business meaning for ecommerce-solution " ++
      "so I can find it with various similarity search algorithms. " ++
      "Do not describe the fields themselves. " ++
      "Without any single or double quotes in the beginning and at the end " ++
      "The documentation must fit into 256 characters based on the following details:\n" ++
      "Title: " ++ title ++ "\n" ++
      "ID: " ++ getStrOrNone data "id" ++ "\n" ++
      "Context:\n" ++ context ++ "\n")
  else
    .ok ("Generate a descriptive text with business meaning for a " ++ dtype ++ " in an ecommerce solution. " ++
      "Do not describe the fields themselves. " ++
      "Without any single or double quotes in the beginning and at the end " ++
      "The documentation must fit into 256 characters based on the following details:\n" ++
      "Title: " ++ getStrOrNone data "title" ++ "\n" ++
      "ID: " ++ getStrOrNone data "id" ++ "\n")

/-- `YAMLProcessor._update_description` (src/llm_descriptor.py lines
240-262): raises `ValueError` on a missing or falsy `id`, otherwise the
cache-check / generate / commit flow (an empty generation is only logged). -/
def ld_update_description (llm : String → String) (data : Element) (dtype : String)
    (cache : Cache) : Except String (Element × Cache) := do
  if isFalsyVal (lookupField data "id") then
    .error ("ValueError: Element ID is missing for " ++ dtype)
  else
    match lookupCache cache (getIdKey data) with
    | some d => .ok (setField data "description" (.str d), cache)
    | none => do
        let prompt ← ld_generate_prompt data dtype cache
        let description := llm prompt
        if description = "" then
          .ok (data, cache)
        else
          .ok (setField data "description" (.str description),
               setCache cache (getIdKey data) description)

/-! ## Helper lemmas: dictionary and cache operations -/

theorem lookupField_setField_self (e : Element) (k : String) (v : Val) :
    lookupField (setField e k v) k = some v := by
  induction e with
  | nil => simp [setField, lookupField]
  | cons p rest ih =>
      obtain ⟨k', w⟩ := p
      by_cases h : k' = k
      · simp [setField, lookupField, h]
      · simp [setField, lookupField, h, ih]

theorem lookupField_setField_ne (e : Element) (k k2 : String) (v : Val) (h : k ≠ k2) :
    lookupField (setField e k2 v) k = lookupField e k := by
  have h' : ¬ k2 = k := fun hh => h hh.symm
  induction e with
  | nil =>
      simp only [setField, lookupField]
      rw [if_neg h']
  | cons p rest ih =>
      obtain ⟨k', w⟩ := p
      simp only [setField]
      by_cases h1 : k' = k2
      · subst h1
        rw [if_pos rfl]
        simp only [lookupField]
        rw [if_neg h', if_neg h']
      · rw [if_neg h1]
        simp only [lookupField]
        by_cases h2 : k' = k
        · rw [if_pos h2, if_pos h2]
        · rw [if_neg h2, if_neg h2]
          exact ih

theorem setField_eq_self (e : Element) (k : String) (v : Val)
    (h : lookupField e k = some v) : setField e k v = e := by
  induction e with
  | nil => simp [lookupField] at h
  | cons p rest ih =>
      obtain ⟨k', w⟩ := p
      by_cases h1 : k' = k
      · subst h1
        simp [lookupField] at h
        simp [setField, h]
      · simp [lookupField, h1] at h
        simp [setField, h1, ih h]

theorem lookupCache_setCache_self (c : Cache) (k : Option String) (v : String) :
    lookupCache (setCache c k v) k = some v := by
  induction c with
  | nil => simp [setCache, lookupCache]
  | cons p rest ih =>
      obtain ⟨k', w⟩ := p
      by_cases h : k' = k
      · simp [setCache, lookupCache, h]
      · simp [setCache, lookupCache, h, ih]

theorem lookupCache_setCache_ne (c : Cache) (k k2 : Option String) (v : String)
    (h : k ≠ k2) : lookupCache (setCache c k2 v) k = lookupCache c k := by
  have h' : ¬ k2 = k := fun hh => h hh.symm
  induction c with
  | nil =>
      simp only [setCache, lookupCache]
      rw [if_neg h']
  | cons p rest ih =>
      obtain ⟨k', w⟩ := p
      simp only [setCache]
      by_cases h1 : k' = k2
      · subst h1
        rw [if_pos rfl]
        simp only [lookupCache]
        rw [if_neg h', if_neg h']
      · rw [if_neg h1]
        simp only [lookupCache]
        by_cases h2 : k' = k
        · rw [if_pos h2, if_pos h2]
        · rw [if_neg h2, if_neg h2]
          exact ih

/-- Extending the cache at an absent key preserves every present entry. -/
theorem lookupCache_setCache_preserve (c : Cache) (k k2 : Option String) (v d : String)
    (hk2 : lookupCache c k2 = none) (h : lookupCache c k = some d) :
    lookupCache (setCache c k2 v) k = some d := by
  have hne : k ≠ k2 := by
    intro hh
    rw [hh, hk2] at h
    exact Option.noConfusion h
  rw [lookupCache_setCache_ne c k k2 v hne]
  exact h

/-! ## Helper lemmas: the cache only grows, entries are never overwritten -/

/-- `c'` keeps every entry of `c` (the engine never overwrites a cache
entry, it only adds new keys). -/
def CacheLe (c c' : Cache) : Prop :=
  ∀ k d, lookupCache c k = some d → lookupCache c' k = some d

theorem CacheLe.rfl (c : Cache) : CacheLe c c := fun _ _ h => h

theorem CacheLe.trans {a b c : Cache} (h1 : CacheLe a b) (h2 : CacheLe b c) :
    CacheLe a c := fun k d h => h2 k d (h1 k d h)

/-- A processing step starting from cache `c` that ends in cache `out`
with event list `evs`: the cache only grows, and every event in the step
was issued against a cache that already contained all of `c`. -/
def StepOK (c out : Cache) (evs : List Event) : Prop :=
  CacheLe c out ∧ ∀ ev ∈ evs, CacheLe c ev.cacheAt

theorem StepOK.comp {c c1 c2 : Cache} {ev1 ev2 : List Event}
    (h1 : StepOK c c1 ev1) (h2 : StepOK c1 c2 ev2) : StepOK c c2 (ev1 ++ ev2) := by
  refine ⟨h1.1.trans h2.1, ?_⟩
  intro ev hev
  rcases List.mem_append.mp hev with h | h
  · exact h1.2 ev h
  · exact h1.1.trans (h2.2 ev h)

theorem StepOK.nil (c : Cache) : StepOK c c [] :=
  ⟨CacheLe.rfl c, fun _ h => absurd h (List.not_mem_nil _)⟩

theorem update_element_description_extends (llm : String → String) (e : Element)
    (t : String) (ids : List String) (c : Cache) :
    CacheLe c (update_element_description llm e t ids c).2.1 := by
  simp only [update_element_description]
  split
  · exact CacheLe.rfl c
  · next hnone =>
      split
      · intro k d h
        exact lookupCache_setCache_preserve _ _ _ _ _ hnone h
      · exact CacheLe.rfl c

theorem stepElement_ok (llm : String → String) (e : Element) (t : String)
    (ids : List String) (c : Cache) :
    StepOK c (stepElement llm e t ids c).2.1 (stepElement llm e t ids c).2.2 := by
  refine ⟨update_element_description_extends llm e t ids c, ?_⟩
  intro ev hev
  simp only [stepElement, List.mem_singleton] at hev
  subst hev
  exact CacheLe.rfl c

theorem stepElement_etype (llm : String → String) (e : Element) (t : String)
    (ids : List String) (c : Cache) :
    ∀ ev ∈ (stepElement llm e t ids c).2.2, ev.etype = t := by
  intro ev hev
  simp only [stepElement, List.mem_singleton] at hev
  subst hev
  rfl

theorem processValElem_ok (llm : String → String) (t : String) (v : Val) (c : Cache) :
    StepOK c (processValElem llm t v c).2.1 (processValElem llm t v c).2.2 ∧
      ∀ ev ∈ (processValElem llm t v c).2.2, ev.etype = t := by
  cases v with
  | obj fs =>
      exact ⟨stepElement_ok llm fs t [] c, stepElement_etype llm fs t [] c⟩
  | str s => exact ⟨StepOK.nil c, by simp [processValElem]⟩
  | arr vs => exact ⟨StepOK.nil c, by simp [processValElem]⟩

theorem processVals_ok (llm : String → String) (t : String) (vs : List Val) (c : Cache) :
    StepOK c (processVals llm t vs c).2.1 (processVals llm t vs c).2.2 ∧
      ∀ ev ∈ (processVals llm t vs c).2.2, ev.etype = t := by
  induction vs generalizing c with
  | nil => exact ⟨StepOK.nil c, by simp [processVals]⟩
  | cons v rest ih =>
      have h1 := processValElem_ok llm t v c
      have h2 := ih (processValElem llm t v c).2.1
      refine ⟨h1.1.comp h2.1, ?_⟩
      intro e he
      rcases List.mem_append.mp he with h | h
      · exact h1.2 e h
      · exact h2.2 e h

theorem nestedListStage_ok {P : Event → Prop}
    (f : List Val → Cache → List Val × Cache × List Event)
    (hf : ∀ vs c, StepOK c (f vs c).2.1 (f vs c).2.2 ∧ ∀ ev ∈ (f vs c).2.2, P ev)
    (e : Element) (key : String) (c : Cache) :
    StepOK c (nestedListStage f e key c).2.1 (nestedListStage f e key c).2.2 ∧
      ∀ ev ∈ (nestedListStage f e key c).2.2, P ev := by
  simp only [nestedListStage]
  cases hl : lookupField e key with
  | some lv =>
      cases lv with
      | arr vs => exact hf vs c
      | str s => exact ⟨StepOK.nil c, by simp⟩
      | obj fs => exact ⟨StepOK.nil c, by simp⟩
  | none => exact ⟨StepOK.nil c, by simp⟩

theorem processAttribute_ok (llm : String → String) (v : Val) (c : Cache) :
    StepOK c (processAttribute llm v c).2.1 (processAttribute llm v c).2.2 ∧
      ∀ ev ∈ (processAttribute llm v c).2.2,
        ev.etype = "attribute" ∨ ev.etype = "label" := by
  cases v with
  | obj attr =>
      have h1 := stepElement_ok llm attr "attribute" [] c
      have h1t := stepElement_etype llm attr "attribute" [] c
      have h2 := nestedListStage_ok (processVals llm "label")
        (fun vs c0 => processVals_ok llm "label" vs c0)
        (stepElement llm attr "attribute" [] c).1 "labels"
        (stepElement llm attr "attribute" [] c).2.1
      simp only [processAttribute]
      refine ⟨h1.comp h2.1, ?_⟩
      intro e he
      rcases List.mem_append.mp he with h | h
      · exact Or.inl (h1t e h)
      · exact Or.inr (h2.2 e h)
  | str s => exact ⟨StepOK.nil c, by simp [processAttribute]⟩
  | arr vs => exact ⟨StepOK.nil c, by simp [processAttribute]⟩

theorem processAttrs_ok (llm : String → String) (vs : List Val) (c : Cache) :
    StepOK c (processAttrs llm vs c).2.1 (processAttrs llm vs c).2.2 ∧
      ∀ ev ∈ (processAttrs llm vs c).2.2,
        ev.etype = "attribute" ∨ ev.etype = "label" := by
  induction vs generalizing c with
  | nil => exact ⟨StepOK.nil c, by simp [processAttrs]⟩
  | cons v rest ih =>
      have h1 := processAttribute_ok llm v c
      have h2 := ih (processAttribute llm v c).2.1
      refine ⟨h1.1.comp h2.1, ?_⟩
      intro e he
      rcases List.mem_append.mp he with h | h
      · exact h1.2 e h
      · exact h2.2 e h

theorem process_dataset_ok (llm : String → String) (d : Element) (c : Cache) :
    StepOK c (process_dataset llm d c).2.1 (process_dataset llm d c).2.2 ∧
      ∀ ev ∈ (process_dataset llm d c).2.2,
        ev.etype = "dataset" ∨ ev.etype = "attribute" ∨ ev.etype = "label" ∨
          ev.etype = "fact" := by
  have h1 := stepElement_ok llm d "dataset" [] c
  have h1t := stepElement_etype llm d "dataset" [] c
  have h2 := nestedListStage_ok (processAttrs llm)
    (fun vs c0 => processAttrs_ok llm vs c0)
    (stepElement llm d "dataset" [] c).1 "attributes"
    (stepElement llm d "dataset" [] c).2.1
  have h3 := nestedListStage_ok (processVals llm "fact")
    (fun vs c0 => processVals_ok llm "fact" vs c0)
    (nestedListStage (processAttrs llm) (stepElement llm d "dataset" [] c).1 "attributes"
      (stepElement llm d "dataset" [] c).2.1).1 "facts"
    (nestedListStage (processAttrs llm) (stepElement llm d "dataset" [] c).1 "attributes"
      (stepElement llm d "dataset" [] c).2.1).2.1
  simp only [process_dataset]
  refine ⟨h1.comp (h2.1.comp h3.1), ?_⟩
  intro ev hev
  rcases List.mem_append.mp hev with h | h
  · exact Or.inl (h1t ev h)
  · rcases List.mem_append.mp h with h | h
    · rcases h2.2 ev h with h' | h'
      · exact Or.inr (Or.inl h')
      · exact Or.inr (Or.inr (Or.inl h'))
    · exact Or.inr (Or.inr (Or.inr (h3.2 ev h)))

theorem process_non_metric_ok (llm : String → String) (d : Element) (c : Cache) :
    StepOK c (process_non_metric llm d c).2.1 (process_non_metric llm d c).2.2 ∧
      ∀ ev ∈ (process_non_metric llm d c).2.2, ev.etype = "non-metric" := by
  simp only [process_non_metric]
  split
  · exact ⟨StepOK.nil c, by simp⟩
  · exact ⟨stepElement_ok llm d "non-metric" [] c, stepElement_etype llm d "non-metric" [] c⟩

theorem process_metric_ok (llm : String → String) (d : Element) (c : Cache) :
    StepOK c (process_metric llm d c).2.1 (process_metric llm d c).2.2 ∧
      ∀ ev ∈ (process_metric llm d c).2.2, ev.etype = "metric" := by
  simp only [process_metric]
  split
  · exact ⟨stepElement_ok llm d "metric" [] c, stepElement_etype llm d "metric" [] c⟩
  · exact ⟨StepOK.nil c, by simp⟩

theorem process_visualization_object_ok (llm : String → String) (d : Element) (c : Cache)
    (e' : Element) (c' : Cache) (evs : List Event)
    (h : process_visualization_object llm d c = .ok (e', c', evs)) :
    StepOK c c' evs ∧ ∀ ev ∈ evs, ev.etype = "visualization object" := by
  simp only [process_visualization_object, bind, Except.bind] at h
  cases hc : getObjD d "content" with
  | error msg => rw [hc] at h; exact absurd h (by simp)
  | ok content =>
      simp only [hc] at h
      cases he : extract_ids_from_visualization_object content with
      | error msg => simp only [he] at h; exact absurd h (by simp)
      | ok ids =>
          simp only [he] at h
          simp only [pure, Except.pure, Except.ok.injEq] at h
          have h1 := stepElement_ok llm d "visualization object" ids c
          have h2 := stepElement_etype llm d "visualization object" ids c
          rw [h] at h1 h2
          exact ⟨h1, h2⟩

theorem process_dashboard_ok (llm : String → String) (d : Element) (c : Cache)
    (e' : Element) (c' : Cache) (evs : List Event)
    (h : process_dashboard llm d c = .ok (e', c', evs)) :
    StepOK c c' evs ∧ ∀ ev ∈ evs, ev.etype = "dashboard" := by
  simp only [process_dashboard, bind, Except.bind] at h
  cases hc : getObjD d "content" with
  | error msg => rw [hc] at h; exact absurd h (by simp)
  | ok content =>
      simp only [hc] at h
      cases hl : getObjD content "layout" with
      | error msg => simp only [hl] at h; exact absurd h (by simp)
      | ok layout =>
          simp only [hl] at h
          cases he : extract_ids_from_dashboard layout with
          | error msg => simp only [he] at h; exact absurd h (by simp)
          | ok ids =>
              simp only [he] at h
              simp only [pure, Except.pure, Except.ok.injEq] at h
              have h1 := stepElement_ok llm d "dashboard" ids c
              have h2 := stepElement_etype llm d "dashboard" ids c
              rw [h] at h1 h2
              exact ⟨h1, h2⟩

/-- The element types that can appear in a phase's events, mirroring the
`process_file` dispatch. -/
def allowedTypes (ftype : String) : List String :=
  if ftype = "dataset" then ["dataset", "attribute", "label", "fact"]
  else if ftype = "date instance" then ["date instance"]
  else if ftype = "non-metric" then ["non-metric"]
  else if ftype = "metric" then ["metric"]
  else if ftype = "visualization object" then ["visualization object"]
  else if ftype = "dashboard" then ["dashboard"]
  else []

theorem process_file_ok (llm : String → String) (ftype : String) (d : Option Element)
    (c : Cache) (o : Option Element) (c' : Cache) (saved : Bool) (evs : List Event)
    (h : process_file llm ftype d c = .ok (o, c', saved, evs)) :
    StepOK c c' evs ∧ ∀ ev ∈ evs, ev.etype ∈ allowedTypes ftype := by
  simp only [process_file, process_doc] at h
  split at h
  · simp only [Except.ok.injEq, Prod.mk.injEq] at h
    obtain ⟨h1, h2, h3, h4⟩ := h
    subst h2
    subst h4
    exact ⟨StepOK.nil c, by simp⟩
  · cases d with
    | none =>
        simp only [Except.ok.injEq, Prod.mk.injEq] at h
        obtain ⟨h1, h2, h3, h4⟩ := h
        subst h2
        subst h4
        exact ⟨StepOK.nil c, by simp⟩
    | some e =>
        simp only [] at h
        split at h
        · next hft =>
            subst hft
            simp only [Except.map, Except.ok.injEq, Prod.mk.injEq] at h
            obtain ⟨h1, h2, h3, h4⟩ := h
            subst h2
            subst h4
            have hp := process_dataset_ok llm e c
            refine ⟨hp.1, ?_⟩
            intro ev hev
            have ha : allowedTypes "dataset" = ["dataset", "attribute", "label", "fact"] := rfl
            rw [ha]
            rcases hp.2 ev hev with h' | h' | h' | h' <;> simp [h']
        · split at h
          · next hft =>
              subst hft
              simp only [Except.map, Except.ok.injEq, Prod.mk.injEq] at h
              obtain ⟨h1, h2, h3, h4⟩ := h
              subst h2
              subst h4
              have hp := stepElement_ok llm e "date instance" [] c
              have hpt := stepElement_etype llm e "date instance" [] c
              refine ⟨hp, ?_⟩
              intro ev hev
              have ha : allowedTypes "date instance" = ["date instance"] := rfl
              rw [ha, hpt ev hev]
              simp
          · split at h
            · next hft =>
                subst hft
                simp only [Except.map, Except.ok.injEq, Prod.mk.injEq] at h
                obtain ⟨h1, h2, h3, h4⟩ := h
                subst h2
                subst h4
                have hp := process_non_metric_ok llm e c
                refine ⟨hp.1, ?_⟩
                intro ev hev
                have ha : allowedTypes "non-metric" = ["non-metric"] := rfl
                rw [ha, hp.2 ev hev]
                simp
            · split at h
              · next hft =>
                  subst hft
                  simp only [Except.map, Except.ok.injEq, Prod.mk.injEq] at h
                  obtain ⟨h1, h2, h3, h4⟩ := h
                  subst h2
                  subst h4
                  have hp := process_metric_ok llm e c
                  refine ⟨hp.1, ?_⟩
                  intro ev hev
                  have ha : allowedTypes "metric" = ["metric"] := rfl
                  rw [ha, hp.2 ev hev]
                  simp
              · split at h
                · next hft =>
                    subst hft
                    cases hv : process_visualization_object llm e c with
                    | error msg => rw [hv] at h; exact absurd h (by simp [Except.map])
                    | ok r =>
                        obtain ⟨e2, c2, evs2⟩ := r
                        rw [hv] at h
                        simp only [Except.map, Except.ok.injEq, Prod.mk.injEq] at h
                        obtain ⟨h1, h2, h3, h4⟩ := h
                        subst h2
                        subst h4
                        have hp := process_visualization_object_ok llm e c e2 c2 evs2 hv
                        refine ⟨hp.1, ?_⟩
                        intro ev hev
                        have ha : allowedTypes "visualization object" = ["visualization object"] := rfl
                        rw [ha, hp.2 ev hev]
                        simp
                · split at h
                  · next hft =>
                      subst hft
                      cases hv : process_dashboard llm e c with
                      | error msg => rw [hv] at h; exact absurd h (by simp [Except.map])
                      | ok r =>
                          obtain ⟨e2, c2, evs2⟩ := r
                          rw [hv] at h
                          simp only [Except.map, Except.ok.injEq, Prod.mk.injEq] at h
                          obtain ⟨h1, h2, h3, h4⟩ := h
                          subst h2
                          subst h4
                          have hp := process_dashboard_ok llm e c e2 c2 evs2 hv
                          refine ⟨hp.1, ?_⟩
                          intro ev hev
                          have ha : allowedTypes "dashboard" = ["dashboard"] := rfl
                          rw [ha, hp.2 ev hev]
                          simp
                  · simp only [Except.map, Except.ok.injEq, Prod.mk.injEq] at h
                    obtain ⟨h1, h2, h3, h4⟩ := h
                    subst h2
                    subst h4
                    exact ⟨StepOK.nil c, by simp⟩

theorem run_phase_ok (llm : String → String) (ftype : String)
    (docs : List (Option Element)) (c : Cache) (o : List (Option Element))
    (c' : Cache) (evs : List Event)
    (h : run_phase llm ftype docs c = .ok (o, c', evs)) :
    StepOK c c' evs ∧ ∀ ev ∈ evs, ev.etype ∈ allowedTypes ftype := by
  induction docs generalizing c o c' evs with
  | nil =>
      simp only [run_phase, Except.ok.injEq, Prod.mk.injEq] at h
      obtain ⟨h1, h2, h3⟩ := h
      subst h2
      subst h3
      exact ⟨StepOK.nil c, by simp⟩
  | cons d rest ih =>
      simp only [run_phase, bind, Except.bind] at h
      cases hf : process_file llm ftype d c with
      | error msg => rw [hf] at h; exact absurd h (by simp)
      | ok r =>
          obtain ⟨d2, c2, saved, ev⟩ := r
          simp only [hf] at h
          cases hr : run_phase llm ftype rest c2 with
          | error msg => simp only [hr] at h; exact absurd h (by simp)
          | ok r2 =>
              obtain ⟨rest2, c3, evs2⟩ := r2
              simp only [hr, pure, Except.pure, Except.ok.injEq, Prod.mk.injEq] at h
              obtain ⟨h1, h2, h3⟩ := h
              subst h2
              subst h3
              have hp := process_file_ok llm ftype d c d2 c2 saved ev hf
              have hq := ih c2 rest2 c3 evs2 hr
              refine ⟨hp.1.comp hq.1, ?_⟩
              intro e he
              rcases List.mem_append.mp he with h' | h'
              · exact hp.2 e h'
              · exact hq.2 e h'

/-! ## Helper lemmas: a fully-cached, consistent document is left unchanged

`entryReady c e` says the entity's id is a key of the cache and the
document already carries exactly the cached description — the state every
committed or cache-copied entity is in after a successful run. -/

def entryReady (c : Cache) (e : Element) : Bool :=
  match lookupCache c (getIdKey e) with
  | some d =>
      match lookupField e "description" with
      | some (.str s) => d == s
      | _ => false
  | none => false

/-- A cached, consistent entity takes the cache-hit path and is returned
unchanged, with no generation call and no cache write. -/
theorem entryReady_update (llm : String → String) (t : String) (ids : List String)
    {c : Cache} {e : Element} (h : entryReady c e = true) :
    update_element_description llm e t ids c = (e, c, false) := by
  unfold entryReady at h
  cases hc : lookupCache c (getIdKey e) with
  | none => rw [hc] at h; exact absurd h (by simp)
  | some d =>
      rw [hc] at h
      cases hd : lookupField e "description" with
      | none => rw [hd] at h; exact absurd h (by simp)
      | some v =>
          rw [hd] at h
          cases v with
          | str s =>
              have hds : d = s := by simpa using h
              subst hds
              simp only [update_element_description, hc]
              rw [setField_eq_self e "description" (.str d) hd]
          | obj fs => exact absurd h (by simp)
          | arr vs => exact absurd h (by simp)

theorem entryReady_stepElement (llm : String → String) (t : String) (ids : List String)
    {c : Cache} {e : Element} (h : entryReady c e = true) :
    stepElement llm e t ids c = (e, c, [⟨t, getIdKey e, false, c⟩]) := by
  simp only [stepElement, entryReady_update llm t ids h]

/-- Readiness of one nested element (a label or a fact). -/
def valReady (c : Cache) : Val → Bool
  | .obj fs => entryReady c fs
  | _ => true

theorem processValElem_ready (llm : String → String) (t : String) (c : Cache) (v : Val)
    (h : valReady c v = true) :
    (processValElem llm t v c).1 = v ∧ (processValElem llm t v c).2.1 = c := by
  cases v with
  | obj fs =>
      simp only [valReady] at h
      rw [processValElem, entryReady_stepElement llm t [] h]
      exact ⟨rfl, rfl⟩
  | str s => exact ⟨rfl, rfl⟩
  | arr vs => exact ⟨rfl, rfl⟩

theorem processVals_ready (llm : String → String) (t : String) (c : Cache) (vs : List Val)
    (h : vs.all (valReady c) = true) :
    (processVals llm t vs c).1 = vs ∧ (processVals llm t vs c).2.1 = c := by
  induction vs with
  | nil => exact ⟨rfl, rfl⟩
  | cons v rest ih =>
      simp only [List.all_cons, Bool.and_eq_true] at h
      obtain ⟨h1, h2⟩ := processValElem_ready llm t c v h.1
      simp only [processVals, h1, h2]
      obtain ⟨h3, h4⟩ := ih h.2
      rw [h3, h4]
      exact ⟨rfl, rfl⟩

/-- An unchanged nested stage: when the nested list under `key` (if any)
is processed to itself with an unchanged cache, the whole stage is the
identity. -/
theorem nestedListStage_ready (f : List Val → Cache → List Val × Cache × List Event)
    (e : Element) (key : String) (c : Cache)
    (hf : ∀ vs, lookupField e key = some (.arr vs) → (f vs c).1 = vs ∧ (f vs c).2.1 = c) :
    (nestedListStage f e key c).1 = e ∧ (nestedListStage f e key c).2.1 = c := by
  simp only [nestedListStage]
  split
  · next vs heq =>
      obtain ⟨h1, h2⟩ := hf vs heq
      rw [h1, h2, setField_eq_self e key (.arr vs) heq]
      exact ⟨rfl, rfl⟩
  · exact ⟨rfl, rfl⟩

/-- Readiness of one attribute together with its labels. -/
def attrReady (c : Cache) : Val → Bool
  | .obj attr =>
      entryReady c attr &&
        (match lookupField attr "labels" with
         | some (.arr ls) => ls.all (valReady c)
         | _ => true)
  | _ => true

theorem processAttribute_ready (llm : String → String) (c : Cache) (v : Val)
    (h : attrReady c v = true) :
    (processAttribute llm v c).1 = v ∧ (processAttribute llm v c).2.1 = c := by
  cases v with
  | obj attr =>
      simp only [attrReady, Bool.and_eq_true] at h
      simp only [processAttribute, entryReady_stepElement llm "attribute" [] h.1]
      have hs := nestedListStage_ready (processVals llm "label") attr "labels" c ?_
      · rw [hs.1, hs.2]
        exact ⟨rfl, rfl⟩
      · intro vs hvs
        have h2 := h.2
        rw [hvs] at h2
        exact processVals_ready llm "label" c vs h2
  | str s => exact ⟨rfl, rfl⟩
  | arr vs => exact ⟨rfl, rfl⟩

theorem processAttrs_ready (llm : String → String) (c : Cache) (vs : List Val)
    (h : vs.all (attrReady c) = true) :
    (processAttrs llm vs c).1 = vs ∧ (processAttrs llm vs c).2.1 = c := by
  induction vs with
  | nil => exact ⟨rfl, rfl⟩
  | cons v rest ih =>
      simp only [List.all_cons, Bool.and_eq_true] at h
      obtain ⟨h1, h2⟩ := processAttribute_ready llm c v h.1
      simp only [processAttrs, h1, h2]
      obtain ⟨h3, h4⟩ := ih h.2
      rw [h3, h4]
      exact ⟨rfl, rfl⟩

/-- Readiness of a whole dataset document, nested entities included. -/
def datasetReady (c : Cache) (e : Element) : Bool :=
  entryReady c e &&
    (match lookupField e "attributes" with
     | some (.arr attrs) => attrs.all (attrReady c)
     | _ => true) &&
    (match lookupField e "facts" with
     | some (.arr facts) => facts.all (valReady c)
     | _ => true)

theorem process_dataset_ready (llm : String → String) (c : Cache) (e : Element)
    (h : datasetReady c e = true) :
    (process_dataset llm e c).1 = e ∧ (process_dataset llm e c).2.1 = c := by
  simp only [datasetReady, Bool.and_eq_true] at h
  obtain ⟨⟨h1, h2⟩, h3⟩ := h
  simp only [process_dataset, entryReady_stepElement llm "dataset" [] h1]
  have hs2 := nestedListStage_ready (processAttrs llm) e "attributes" c ?_
  · rw [hs2.1, hs2.2]
    have hs3 := nestedListStage_ready (processVals llm "fact") e "facts" c ?_
    · rw [hs3.1, hs3.2]
      exact ⟨rfl, rfl⟩
    · intro vs hvs
      rw [hvs] at h3
      exact processVals_ready llm "fact" c vs h3
  · intro vs hvs
    rw [hvs] at h2
    exact processAttrs_ready llm c vs h2

/-- Whether an `Except` computation succeeded. -/
def exceptOk {α : Type} : Except String α → Bool
  | .ok _ => true
  | .error _ => false

/-- Readiness of one document for one phase: every entity the phase would
touch is cached consistently, and (for the reference-extracting phases)
extraction succeeds.  An unreadable/empty document is trivially ready. -/
def docReady (ftype : String) (c : Cache) : Option Element → Bool
  | none => true
  | some e =>
      if e.isEmpty then true
      else if ftype = "dataset" then datasetReady c e
      else if ftype = "date instance" then entryReady c e
      else if ftype = "non-metric" then
        (if has_metric_references (getNestedStr e "content" "maql") then true
         else entryReady c e)
      else if ftype = "metric" then
        (if has_metric_references (getNestedStr e "content" "maql") then entryReady c e
         else true)
      else if ftype = "visualization object" then
        entryReady c e &&
          exceptOk (getObjD e "content" >>= extract_ids_from_visualization_object)
      else if ftype = "dashboard" then
        entryReady c e &&
          exceptOk (getObjD e "content" >>= fun ct =>
            getObjD ct "layout" >>= extract_ids_from_dashboard)
      else true

/-- A ready document is written back unchanged with an unchanged cache. -/
theorem process_file_ready (llm : String → String) (ftype : String)
    (d : Option Element) (c : Cache) (h : docReady ftype c d = true) :
    ∃ saved evs, process_file llm ftype d c = .ok (d, c, saved, evs) := by
  cases d with
  | none => exact ⟨false, [], rfl⟩
  | some e =>
      cases e with
      | nil => exact ⟨false, [], rfl⟩
      | cons p1 prest =>
          simp only [docReady, List.isEmpty_cons, if_false, Bool.false_eq_true] at h
          by_cases hft1 : ftype = "dataset"
          · subst hft1
            rw [if_pos rfl] at h
            obtain ⟨hr1, hr2⟩ := process_dataset_ready llm c (p1 :: prest) h
            refine ⟨true, (process_dataset llm (p1 :: prest) c).2.2, ?_⟩
            have hstep : process_file llm "dataset" (some (p1 :: prest)) c =
                .ok (some (process_dataset llm (p1 :: prest) c).1,
                     (process_dataset llm (p1 :: prest) c).2.1, true,
                     (process_dataset llm (p1 :: prest) c).2.2) := rfl
            rw [hstep, hr1, hr2]
          · rw [if_neg hft1] at h
            by_cases hft2 : ftype = "date instance"
            · subst hft2
              rw [if_pos rfl] at h
              refine ⟨true, [⟨"date instance", getIdKey (p1 :: prest), false, c⟩], ?_⟩
              have hstep : process_file llm "date instance" (some (p1 :: prest)) c =
                  .ok (some (stepElement llm (p1 :: prest) "date instance" [] c).1,
                       (stepElement llm (p1 :: prest) "date instance" [] c).2.1, true,
                       (stepElement llm (p1 :: prest) "date instance" [] c).2.2) := rfl
              rw [hstep, entryReady_stepElement llm "date instance" [] h]
            · rw [if_neg hft2] at h
              by_cases hft3 : ftype = "non-metric"
              · subst hft3
                rw [if_pos rfl] at h
                have hstep : process_file llm "non-metric" (some (p1 :: prest)) c =
                    .ok (some (process_non_metric llm (p1 :: prest) c).1,
                         (process_non_metric llm (p1 :: prest) c).2.1, true,
                         (process_non_metric llm (p1 :: prest) c).2.2) := rfl
                by_cases hm : has_metric_references (getNestedStr (p1 :: prest) "content" "maql") = true
                · have hnm : process_non_metric llm (p1 :: prest) c = (p1 :: prest, c, []) := by
                    simp only [process_non_metric]
                    rw [if_pos hm]
                  exact ⟨true, [], by rw [hstep, hnm]⟩
                · rw [if_neg hm] at h
                  have hnm : process_non_metric llm (p1 :: prest) c =
                      (p1 :: prest, c, [⟨"non-metric", getIdKey (p1 :: prest), false, c⟩]) := by
                    simp only [process_non_metric]
                    rw [if_neg hm, entryReady_stepElement llm "non-metric" [] h]
                  exact ⟨true, [⟨"non-metric", getIdKey (p1 :: prest), false, c⟩],
                    by rw [hstep, hnm]⟩
              · rw [if_neg hft3] at h
                by_cases hft4 : ftype = "metric"
                · subst hft4
                  rw [if_pos rfl] at h
                  have hstep : process_file llm "metric" (some (p1 :: prest)) c =
                      .ok (some (process_metric llm (p1 :: prest) c).1,
                           (process_metric llm (p1 :: prest) c).2.1, true,
                           (process_metric llm (p1 :: prest) c).2.2) := rfl
                  by_cases hm : has_metric_references (getNestedStr (p1 :: prest) "content" "maql") = true
                  · rw [if_pos hm] at h
                    have hnm : process_metric llm (p1 :: prest) c =
                        (p1 :: prest, c, [⟨"metric", getIdKey (p1 :: prest), false, c⟩]) := by
                      simp only [process_metric]
                      rw [if_pos hm, entryReady_stepElement llm "metric" [] h]
                    exact ⟨true, [⟨"metric", getIdKey (p1 :: prest), false, c⟩],
                      by rw [hstep, hnm]⟩
                  · have hnm : process_metric llm (p1 :: prest) c = (p1 :: prest, c, []) := by
                      simp only [process_metric]
                      rw [if_neg hm]
                    exact ⟨true, [], by rw [hstep, hnm]⟩
                · rw [if_neg hft4] at h
                  by_cases hft5 : ftype = "visualization object"
                  · subst hft5
                    rw [if_pos rfl] at h
                    simp only [Bool.and_eq_true] at h
                    obtain ⟨hready, hok⟩ := h
                    cases hc : getObjD (p1 :: prest) "content" with
                    | error msg =>
                        simp only [bind, Except.bind, hc] at hok
                        exact absurd hok (by simp [exceptOk])
                    | ok content =>
                        simp only [bind, Except.bind, hc] at hok
                        cases he : extract_ids_from_visualization_object content with
                        | error msg => simp only [he] at hok; exact absurd hok (by simp [exceptOk])
                        | ok ids =>
                            refine ⟨true,
                              [⟨"visualization object", getIdKey (p1 :: prest), false, c⟩], ?_⟩
                            have hstep : process_file llm "visualization object"
                                (some (p1 :: prest)) c =
                                Except.map (fun r => (some r.1, r.2.1, true, r.2.2))
                                  (process_visualization_object llm (p1 :: prest) c) := rfl
                            have hv : process_visualization_object llm (p1 :: prest) c =
                                .ok (p1 :: prest, c,
                                  [⟨"visualization object", getIdKey (p1 :: prest), false, c⟩]) := by
                              simp only [process_visualization_object, bind, Except.bind, hc, he,
                                entryReady_stepElement llm "visualization object" ids hready,
                                pure, Except.pure]
                            rw [hstep, hv]
                            rfl
                  · rw [if_neg hft5] at h
                    by_cases hft6 : ftype = "dashboard"
                    · subst hft6
                      rw [if_pos rfl] at h
                      simp only [Bool.and_eq_true] at h
                      obtain ⟨hready, hok⟩ := h
                      cases hc : getObjD (p1 :: prest) "content" with
                      | error msg =>
                          simp only [bind, Except.bind, hc] at hok
                          exact absurd hok (by simp [exceptOk])
                      | ok content =>
                          simp only [bind, Except.bind, hc] at hok
                          cases hl : getObjD content "layout" with
                          | error msg =>
                              simp only [bind, Except.bind, hl] at hok
                              exact absurd hok (by simp [exceptOk])
                          | ok layout =>
                              simp only [bind, Except.bind, hl] at hok
                              cases he : extract_ids_from_dashboard layout with
                              | error msg => simp only [he] at hok; exact absurd hok (by simp [exceptOk])
                              | ok ids =>
                                  refine ⟨true,
                                    [⟨"dashboard", getIdKey (p1 :: prest), false, c⟩], ?_⟩
                                  have hstep : process_file llm "dashboard"
                                      (some (p1 :: prest)) c =
                                      Except.map (fun r => (some r.1, r.2.1, true, r.2.2))
                                        (process_dashboard llm (p1 :: prest) c) := rfl
                                  have hv : process_dashboard llm (p1 :: prest) c =
                                      .ok (p1 :: prest, c,
                                        [⟨"dashboard", getIdKey (p1 :: prest), false, c⟩]) := by
                                    simp only [process_dashboard, bind, Except.bind, hc, hl, he,
                                      entryReady_stepElement llm "dashboard" ids hready,
                                      pure, Except.pure]
                                  rw [hstep, hv]
                                  rfl
                    · refine ⟨true, [], ?_⟩
                      have hfalsy : isFalsyDoc (some (p1 :: prest)) = false := rfl
                      simp only [process_file, process_doc, hfalsy, Bool.false_eq_true,
                        if_false]
                      rw [if_neg hft1, if_neg hft2, if_neg hft3, if_neg hft4, if_neg hft5,
                        if_neg hft6]
                      rfl

/-- A phase over ready documents changes neither the documents nor the
cache. -/
theorem run_phase_ready (llm : String → String) (ftype : String)
    (docs : List (Option Element)) (c : Cache)
    (h : ∀ d ∈ docs, docReady ftype c d = true) :
    ∃ evs, run_phase llm ftype docs c = .ok (docs, c, evs) := by
  induction docs with
  | nil => exact ⟨[], rfl⟩
  | cons d rest ih =>
      obtain ⟨saved, evs, hf⟩ := process_file_ready llm ftype d c (h d (by simp))
      obtain ⟨evs2, hr⟩ := ih (fun d2 hd2 => h d2 (by simp [hd2]))
      refine ⟨evs ++ evs2, ?_⟩
      simp only [run_phase, bind, Except.bind, hf, hr, pure, Except.pure]

/-- A full run over a tree whose every document is ready for its phase
returns the tree and the cache unchanged. -/
theorem generate_descriptions_ready (llm : String → String) (tree : DocTree) (c : Cache)
    (h1 : ∀ d ∈ tree.dateInstances, docReady "date instance" c d = true)
    (h2 : ∀ d ∈ tree.datasets, docReady "dataset" c d = true)
    (h3 : ∀ d ∈ tree.metrics, docReady "non-metric" c d = true)
    (h4 : ∀ d ∈ tree.metrics, docReady "metric" c d = true)
    (h5 : ∀ d ∈ tree.visualizations, docReady "visualization object" c d = true)
    (h6 : ∀ d ∈ tree.dashboards, docReady "dashboard" c d = true) :
    ∃ e1 e2 e3 e4 e5 e6,
      generate_descriptions llm tree c = .ok ⟨tree, c, e1, e2, e3, e4, e5, e6⟩ := by
  obtain ⟨ev1, r1⟩ := run_phase_ready llm "date instance" tree.dateInstances c h1
  obtain ⟨ev2, r2⟩ := run_phase_ready llm "dataset" tree.datasets c h2
  obtain ⟨ev3, r3⟩ := run_phase_ready llm "non-metric" tree.metrics c h3
  obtain ⟨ev4, r4⟩ := run_phase_ready llm "metric" tree.metrics c h4
  obtain ⟨ev5, r5⟩ := run_phase_ready llm "visualization object" tree.visualizations c h5
  obtain ⟨ev6, r6⟩ := run_phase_ready llm "dashboard" tree.dashboards c h6
  refine ⟨ev1, ev2, ev3, ev4, ev5, ev6, ?_⟩
  obtain ⟨di, ds, ms, vz, db⟩ := tree
  simp only at r1 r2 r3 r4 r5 r6
  simp only [generate_descriptions, bind, Except.bind, r1, r2, r3, r4, r5, r6, pure,
    Except.pure]

/-! ## Claim theorems -/

/-- C1: the spec says a document lacking a non-empty `id` makes the
per-entity update path raise (fatal), never silently skipping or caching
under a null key.  The `llm_descriptor` variant does raise `ValueError`,
but the engine path `_update_element_description` does not: on the same
id-less document it generates a description and caches it under the
Python `None` key.  This theorem evaluates both paths at the failing
input (a document with only a `title`), exhibiting the divergence. -/
theorem claim_C1_missing_id :
    ld_update_description (fun _ => "d") [("title", .str "T")] "dataset" [] =
      .error "ValueError: Element ID is missing for dataset" ∧
    update_element_description (fun _ => "d") [("title", .str "T")] "dataset" [] [] =
      ([("title", .str "T"), ("description", .str "d")], [(none, "d")], true) :=
  ⟨rfl, rfl⟩

/-- C2 counterexample: the claim says the dataset-word validation applies
to both non-dependent and dependent metrics.  It does not: the element
type of the non-dependent phase is `"non-metric"`, and the guard
`element_type != "metric"` therefore accepts a generated description
containing "dataset" for a non-dependent metric — the description is
committed to the document and cached. -/
theorem claim_C2_cex :
    update_element_description (fun _ => "This dataset measures revenue")
        [("id", .str "metric/m2")] "non-metric" [] [] =
      ([("id", .str "metric/m2"), ("description", .str "This dataset measures revenue")],
       [(some "metric/m2", "This dataset measures revenue")], true) := rfl

/-- C2 (amended): only dependent-metric entities (element type `"metric"`)
are validated: a generated description containing "dataset"
(case-insensitively) is rejected — the entity keeps its prior fields, its
id is not cached, and the update returns normally (the run continues);
for the `"non-metric"` element type any non-empty generated description
is accepted and committed. -/
theorem claim_C2_validation :
    (∀ (llm : String → String) (e : Element) (ids : List String) (c : Cache),
        lookupCache c (getIdKey e) = none →
        validate_metric_description (llm (generate_prompt e "metric" c ids)) = false →
        update_element_description llm e "metric" ids c = (e, c, true)) ∧
    (∀ (llm : String → String) (e : Element) (ids : List String) (c : Cache),
        lookupCache c (getIdKey e) = none →
        llm (generate_prompt e "non-metric" c ids) ≠ "" →
        update_element_description llm e "non-metric" ids c =
          (setField e "description" (.str (llm (generate_prompt e "non-metric" c ids))),
           setCache c (getIdKey e) (llm (generate_prompt e "non-metric" c ids)), true)) := by
  constructor
  · intro llm e ids c hnone hval
    simp only [update_element_description, hnone]
    rw [if_neg ?_]
    intro hcond
    rcases hcond.2 with h | h
    · exact h rfl
    · rw [hval] at h
      exact Bool.noConfusion h
  · intro llm e ids c hnone hne
    simp only [update_element_description, hnone]
    rw [if_pos ⟨hne, Or.inl (by decide)⟩]

/-- C2 witness: a concrete dependent metric whose generated text contains
"dataset" is rejected (document and cache untouched), while a concrete
non-dependent metric with a non-empty generation is committed. -/
theorem claim_C2_witness :
    update_element_description (fun _ => "A dataset summary")
        [("id", .str "metric/m")] "metric" [] [] =
      ([("id", .str "metric/m")], [], true) ∧
    update_element_description (fun _ => "ok") [("id", .str "metric/m")] "non-metric" [] [] =
      ([("id", .str "metric/m"), ("description", .str "ok")], [(some "metric/m", "ok")],
       true) :=
  ⟨claim_C2_validation.1 (fun _ => "A dataset summary") [("id", .str "metric/m")] [] []
      rfl (by decide),
   claim_C2_validation.2 (fun _ => "ok") [("id", .str "metric/m")] [] [] rfl (by decide)⟩

/-- C3 counterexample: a dataset document that is left completely
unchanged by processing (its id is cached with exactly the description it
already carries) is still written back (`saved = true`), refuting
"rewrites the document only if any field changed" for this engine. -/
theorem claim_C3_cex :
    process_file (fun _ => "x") "dataset"
        (some [("id", .str "dataset/customers"), ("description", .str "D1")])
        [(some "dataset/customers", "D1")] =
      .ok (some [("id", .str "dataset/customers"), ("description", .str "D1")],
           [(some "dataset/customers", "D1")], true,
           [⟨"dataset", some "dataset/customers", false,
             [(some "dataset/customers", "D1")]⟩]) := rfl

/-- C3 (amended): `process_file` calls `save_yaml_file` unconditionally:
every successfully processed loaded document is written back whether or
not any field changed; only an unreadable (`None`) or empty document is
skipped without a write.  (The change-before-write comparison exists only
in the legacy `lmm_descriptor.update_yaml_file` variant.) -/
theorem claim_C3_always_writes :
    (∀ (llm : String → String) (ftype : String) (e : Element) (c : Cache)
        (out : Option Element) (c2 : Cache) (saved : Bool) (evs : List Event),
        process_file llm ftype (some e) c = .ok (out, c2, saved, evs) →
        e ≠ [] → saved = true) ∧
    (∀ (llm : String → String) (ftype : String) (c : Cache),
        process_file llm ftype none c = .ok (none, c, false, [])) ∧
    (∀ (llm : String → String) (ftype : String) (c : Cache),
        process_file llm ftype (some []) c = .ok (some [], c, false, [])) := by
  refine ⟨?_, fun llm ftype c => rfl, fun llm ftype c => rfl⟩
  intro llm ftype e c out c2 saved evs h hne
  cases e with
  | nil => exact absurd rfl hne
  | cons p rest =>
      have hfalsy : isFalsyDoc (some (p :: rest)) = false := rfl
      simp only [process_file, hfalsy, Bool.false_eq_true, if_false] at h
      cases hx : process_doc llm ftype (p :: rest) c with
      | error msg => rw [hx] at h; exact absurd h (by simp [Except.map])
      | ok r =>
          rw [hx] at h
          simp only [Except.map, Except.ok.injEq, Prod.mk.injEq] at h
          exact h.2.2.1.symm

/-- C3 witness: a loaded one-field document is written (`saved = true`). -/
theorem claim_C3_witness :
    process_file (fun _ => "x") "date instance" (some [("id", .str "d1")]) [] =
      .ok (some [("id", .str "d1"), ("description", .str "x")], [(some "d1", "x")], true,
        [⟨"date instance", some "d1", true, []⟩]) ∧
    true = true :=
  ⟨rfl, claim_C3_always_writes.1 (fun _ => "x") "date instance" [("id", .str "d1")] []
      (some [("id", .str "d1"), ("description", .str "x")]) [(some "d1", "x")] true
      [⟨"date instance", some "d1", true, []⟩] rfl (List.cons_ne_nil _ _)⟩

/-- C10: when the generation service returns the empty string for an
uncached entity, `_update_element_description` takes the failure branch:
the document is left without a description, nothing is written to the
cache, and the function returns normally (the run continues; the failure
is only logged). -/
theorem claim_C10_empty_response (llm : String → String) (e : Element) (t : String)
    (ids : List String) (c : Cache)
    (hnone : lookupCache c (getIdKey e) = none)
    (hempty : llm (generate_prompt e t c ids) = "") :
    update_element_description llm e t ids c = (e, c, true) := by
  simp only [update_element_description, hnone]
  rw [if_neg ?_]
  intro hcond
  exact hcond.1 hempty

/-- C10 witness: a concrete uncached fact whose generation returns the
empty string is left untouched and uncached. -/
theorem claim_C10_witness :
    update_element_description (fun _ => "") [("id", .str "fact/f")] "fact" [] [] =
      ([("id", .str "fact/f")], [], true) :=
  claim_C10_empty_response (fun _ => "") [("id", .str "fact/f")] "fact" [] [] rfl rfl

/-- Generation service used by the C4 counterexample: returns the empty
string whenever the prompt still shows an unresolved reference, and "D"
otherwise — a fixed function of the prompt, as the engine sees it. -/
def c4llm : String → String :=
  fun p => if pyInStr "No description available" p then "" else "D"

/-- Visualization referencing the measure identifier `m1`. -/
def c4viz1 : Element :=
  [("id", .str "v1"),
   ("content", .obj
     [("buckets", .arr
       [.obj [("items", .arr
         [.obj [("measure", .obj
           [("definition", .obj
             [("measureDefinition", .obj
               [("item", .obj [("identifier", .obj [("id", .str "m1")])])])])])]])]])])]

/-- Visualization whose own id is the referenced identifier `m1`. -/
def c4viz2 : Element := [("id", .str "m1")]

def c4tree : DocTree := ⟨[], [], [], [some c4viz1, some c4viz2], []⟩

/-- First run: starts from the empty cache. -/
def c4run1 : Except String RunOut := generate_descriptions c4llm c4tree []

/-- Second run: over the document tree as rewritten by the first run,
with the cache the first run persisted. -/
def c4run2 : Except String RunOut :=
  match c4run1 with
  | .ok r => generate_descriptions c4llm r.tree r.cache
  | .error msg => .error msg

/-- The description fields of the visualization documents of a run. -/
def c4descs (r : Except String RunOut) : Except String (List (Option Val)) :=
  r.map fun o => o.tree.visualizations.map fun d =>
    d.bind fun e => lookupField e "description"

set_option maxRecDepth 100000 in
/-- C4 counterexample: the first run soft-fails `v1` (its generation,
seeing `m1` unresolved, returns the empty string, which is rejected and
not cached) and then commits `m1`.  The second run — over the same
document tree, with the cache exactly as the first run populated it —
regenerates `v1` with `m1` now resolved and commits a description:
a description change on the second run, refuting the claim's
idempotence conjunct. -/
theorem claim_C4_cex :
    c4descs c4run1 = .ok [none, some (.str "D")] ∧
    (c4run1.map fun r => r.cache) = .ok [(some "m1", "D")] ∧
    c4descs c4run2 = .ok [some (.str "D"), some (.str "D")] :=
  ⟨rfl, rfl, rfl⟩

/-- C4 (amended): (i) an entity whose id is cached gets the cached
description copied onto it, with no generation call and no cache write;
(ii) no engine update overwrites an existing cache entry; (iii) a second
run produces zero changes provided the first run committed every entity:
over a tree whose every entity is cached with its document description
equal to the cached value (and reference extraction succeeds), a full run
returns the tree and the cache unchanged.  An entity that soft-failed in
the first run (validation rejection or empty response) is not cached and
may be regenerated — and change — on the second run. -/
theorem claim_C4_cache :
    (∀ (llm : String → String) (e : Element) (t : String) (ids : List String)
        (c : Cache) (d : String),
        lookupCache c (getIdKey e) = some d →
        update_element_description llm e t ids c =
          (setField e "description" (.str d), c, false)) ∧
    (∀ (llm : String → String) (e : Element) (t : String) (ids : List String)
        (c : Cache) (k : Option String) (d : String),
        lookupCache c k = some d →
        lookupCache (update_element_description llm e t ids c).2.1 k = some d) ∧
    (∀ (llm : String → String) (tree : DocTree) (c : Cache),
        (∀ d ∈ tree.dateInstances, docReady "date instance" c d = true) →
        (∀ d ∈ tree.datasets, docReady "dataset" c d = true) →
        (∀ d ∈ tree.metrics, docReady "non-metric" c d = true) →
        (∀ d ∈ tree.metrics, docReady "metric" c d = true) →
        (∀ d ∈ tree.visualizations, docReady "visualization object" c d = true) →
        (∀ d ∈ tree.dashboards, docReady "dashboard" c d = true) →
        ∃ e1 e2 e3 e4 e5 e6,
          generate_descriptions llm tree c = .ok ⟨tree, c, e1, e2, e3, e4, e5, e6⟩) := by
  refine ⟨?_, ?_, fun llm tree c h1 h2 h3 h4 h5 h6 =>
    generate_descriptions_ready llm tree c h1 h2 h3 h4 h5 h6⟩
  · intro llm e t ids c d h
    simp only [update_element_description, h]
  · intro llm e t ids c k d h
    exact update_element_description_extends llm e t ids c k d h

/-- C4 witness: the cache-hit path at a concrete cached fact, entry
preservation at a concrete update, and an unchanged rerun over a
one-visualization tree whose entity is cached consistently. -/
theorem claim_C4_witness :
    update_element_description (fun _ => "x") [("id", .str "fact/f")] "fact" []
        [(some "fact/f", "D")] =
      ([("id", .str "fact/f"), ("description", .str "D")], [(some "fact/f", "D")], false) ∧
    lookupCache (update_element_description (fun _ => "x") [("id", .str "q")] "fact" []
        [(some "fact/f", "D")]).2.1 (some "fact/f") = some "D" ∧
    (∃ e1 e2 e3 e4 e5 e6,
      generate_descriptions (fun _ => "x")
          ⟨[], [], [], [some [("id", .str "v1"), ("description", .str "D")]], []⟩
          [(some "v1", "D")] =
        .ok ⟨⟨[], [], [], [some [("id", .str "v1"), ("description", .str "D")]], []⟩,
             [(some "v1", "D")], e1, e2, e3, e4, e5, e6⟩) :=
  ⟨claim_C4_cache.1 (fun _ => "x") [("id", .str "fact/f")] "fact" []
      [(some "fact/f", "D")] "D" rfl,
   claim_C4_cache.2.1 (fun _ => "x") [("id", .str "q")] "fact" []
      [(some "fact/f", "D")] (some "fact/f") "D" rfl,
   claim_C4_cache.2.2 (fun _ => "x")
      ⟨[], [], [], [some [("id", .str "v1"), ("description", .str "D")]], []⟩
      [(some "v1", "D")]
      (fun d hd => absurd hd (List.not_mem_nil d))
      (fun d hd => absurd hd (List.not_mem_nil d))
      (fun d hd => absurd hd (List.not_mem_nil d))
      (fun d hd => absurd hd (List.not_mem_nil d))
      (fun d hd => by
        simp only [List.mem_singleton] at hd
        subst hd
        rfl)
      (fun d hd => absurd hd (List.not_mem_nil d))⟩

/-- C5: a full run executes the six phases strictly in the order
date-instance, dataset, non-dependent-metric, dependent-metric,
visualization-object, dashboard (`generate_descriptions` is exactly the
composition of the six `run_phase` calls, the dependent-metric phase
reading the documents the non-dependent phase wrote); every
non-dependent-metric event precedes every dependent-metric event in the
full trace; and any non-dependent metric committed by the end of phase 3
is resolved in the cache at the moment of every dependent-metric
generation call. -/
theorem claim_C5_phase_order (llm : String → String) (tree : DocTree) (c0 : Cache)
    (di ds m1 m2 vz db : List (Option Element))
    (c1 c2 c3 c4 c5 c6 : Cache)
    (e1 e2 e3 e4 e5 e6 : List Event)
    (h1 : run_phase llm "date instance" tree.dateInstances c0 = .ok (di, c1, e1))
    (h2 : run_phase llm "dataset" tree.datasets c1 = .ok (ds, c2, e2))
    (h3 : run_phase llm "non-metric" tree.metrics c2 = .ok (m1, c3, e3))
    (h4 : run_phase llm "metric" m1 c3 = .ok (m2, c4, e4))
    (h5 : run_phase llm "visualization object" tree.visualizations c4 = .ok (vz, c5, e5))
    (h6 : run_phase llm "dashboard" tree.dashboards c5 = .ok (db, c6, e6)) :
    generate_descriptions llm tree c0 =
        .ok ⟨⟨di, ds, m2, vz, db⟩, c6, e1, e2, e3, e4, e5, e6⟩ ∧
    (∀ ev ∈ e3, ev.etype = "non-metric") ∧
    (∀ ev ∈ e4, ev.etype = "metric") ∧
    (∃ A B, e1 ++ e2 ++ e3 ++ e4 ++ e5 ++ e6 = A ++ B ∧
        (∀ ev ∈ A, ev.etype ≠ "metric") ∧
        (∀ ev ∈ B, ev.etype ≠ "non-metric")) ∧
    (∀ (m : Option String) (d : String), lookupCache c3 m = some d →
        ∀ ev ∈ e4, ev.genCalled = true → lookupCache ev.cacheAt m = some d) := by
  have o1 := run_phase_ok llm "date instance" tree.dateInstances c0 di c1 e1 h1
  have o2 := run_phase_ok llm "dataset" tree.datasets c1 ds c2 e2 h2
  have o3 := run_phase_ok llm "non-metric" tree.metrics c2 m1 c3 e3 h3
  have o4 := run_phase_ok llm "metric" m1 c3 m2 c4 e4 h4
  have o5 := run_phase_ok llm "visualization object" tree.visualizations c4 vz c5 e5 h5
  have o6 := run_phase_ok llm "dashboard" tree.dashboards c5 db c6 e6 h6
  have hne : ∀ (s t : String) (l : List String), s ∈ l → t ∉ l → s ≠ t :=
    fun s t l hs hm heq => hm (heq ▸ hs)
  refine ⟨?_, ?_, ?_, ?_, ?_⟩
  · simp only [generate_descriptions, bind, Except.bind, h1, h2, h3, h4, h5, h6, pure,
      Except.pure]
  · intro ev hev
    have h := o3.2 ev hev
    rw [show allowedTypes "non-metric" = ["non-metric"] from rfl] at h
    simpa using h
  · intro ev hev
    have h := o4.2 ev hev
    rw [show allowedTypes "metric" = ["metric"] from rfl] at h
    simpa using h
  · refine ⟨e1 ++ e2 ++ e3, e4 ++ e5 ++ e6, by simp [List.append_assoc], ?_, ?_⟩
    · intro ev hev
      rcases List.mem_append.mp hev with h | h
      · rcases List.mem_append.mp h with h | h
        · exact hne _ _ _ (o1.2 ev h) (by decide)
        · exact hne _ _ _ (o2.2 ev h) (by decide)
      · exact hne _ _ _ (o3.2 ev h) (by decide)
    · intro ev hev
      rcases List.mem_append.mp hev with h | h
      · rcases List.mem_append.mp h with h | h
        · exact hne _ _ _ (o4.2 ev h) (by decide)
        · exact hne _ _ _ (o5.2 ev h) (by decide)
      · exact hne _ _ _ (o6.2 ev h) (by decide)
  · intro m d hm ev hev hgen
    exact o4.1.2 ev hev m d hm

def c5llm : String → String := fun _ => "desc"

def c5ma : Element :=
  [("id", .str "metric/a"), ("content", .obj [("maql", .str "SELECT fact/x")])]

def c5mb : Element :=
  [("id", .str "metric/b"), ("content", .obj [("maql", .str "SELECT metric/a + fact/y")])]

def c5tree : DocTree := ⟨[], [], [some c5ma, some c5mb], [], []⟩

set_option maxRecDepth 100000 in
/-- C5 witness: one non-dependent metric `metric/a` (expression over
`fact/x`) and one dependent metric `metric/b` (expression over `metric/a`
and `fact/y`): the run commits `metric/a` in phase 3, and the sole
phase-4 generation call for `metric/b` sees `metric/a` in its cache. -/
theorem claim_C5_witness :
    generate_descriptions c5llm c5tree [] =
      .ok ⟨⟨[], [], [some (c5ma ++ [("description", Val.str "desc")]),
                     some (c5mb ++ [("description", Val.str "desc")])], [], []⟩,
           [(some "metric/a", "desc"), (some "metric/b", "desc")],
           [], [], [⟨"non-metric", some "metric/a", true, []⟩],
           [⟨"metric", some "metric/b", true, [(some "metric/a", "desc")]⟩], [], []⟩ ∧
    lookupCache [(some "metric/a", "desc")] (some "metric/a") = some "desc" := by
  have h := claim_C5_phase_order c5llm c5tree []
    [] [] [some (c5ma ++ [("description", Val.str "desc")]), some c5mb]
    [some (c5ma ++ [("description", Val.str "desc")]),
     some (c5mb ++ [("description", Val.str "desc")])]
    [] []
    [] [] [(some "metric/a", "desc")]
    [(some "metric/a", "desc"), (some "metric/b", "desc")]
    [(some "metric/a", "desc"), (some "metric/b", "desc")]
    [(some "metric/a", "desc"), (some "metric/b", "desc")]
    [] [] [⟨"non-metric", some "metric/a", true, []⟩]
    [⟨"metric", some "metric/b", true, [(some "metric/a", "desc")]⟩] [] []
    rfl rfl rfl rfl rfl rfl
  exact ⟨h.1, h.2.2.2.2 (some "metric/a") "desc" rfl
    ⟨"metric", some "metric/b", true, [(some "metric/a", "desc")]⟩ (by simp) rfl⟩

/-! ## Shape of the expression-scanner output (for C6/C7) -/

theorem takeWhile_all_self (p : Char → Bool) (l : List Char) :
    (l.takeWhile p).all p = true := by
  induction l with
  | nil => rfl
  | cons c cs ih =>
      simp only [List.takeWhile]
      cases hp : p c with
      | false => rfl
      | true => simp [hp, ih]

theorem matchCat_mem (cats : List String) (cs : List Char) (cat : String)
    (rest : List Char) (h : matchCat cats cs = some (cat, rest)) : cat ∈ cats := by
  induction cats with
  | nil => simp [matchCat] at h
  | cons hd tl ih =>
      simp only [matchCat] at h
      split at h
      · simp only [Option.some.injEq, Prod.mk.injEq] at h
        simp [h.1]
      · simp [ih h]

/-- A successful position match yields a well-shaped token. -/
theorem tryMatch_shape (cs : List Char) (tok : String) (rest3 : List Char)
    (h : tryMatch cs = some (tok, rest3)) :
    ∃ cat name, cat ∈ categories ∧ name ≠ [] ∧ name.all isWordChar = true ∧
      tok = cat ++ "/" ++ String.mk name := by
  simp only [tryMatch] at h
  split at h
  · next cat rest1 hmc =>
      split at h
      · next rest2 =>
          split at h
          · exact absurd h (by simp)
          · next hname =>
              simp only [Option.some.injEq, Prod.mk.injEq] at h
              refine ⟨cat, rest2.takeWhile isWordChar,
                matchCat_mem categories cs cat _ hmc, ?_,
                takeWhile_all_self isWordChar rest2, h.1.symm⟩
              intro hnil
              rw [List.isEmpty_eq_true] at hname
              exact hname hnil
      · exact absurd h (by simp)
  · exact absurd h (by simp)

/-- Every id emitted by the scanner has the shape
`<category>/<name>` with a nonempty alphanumeric/underscore name. -/
theorem scanMaql_shape (fuel : Nat) (b : Bool) (cs : List Char) (r : String)
    (h : r ∈ scanMaql fuel b cs) :
    ∃ cat name, cat ∈ categories ∧ name ≠ [] ∧ name.all isWordChar = true ∧
      r = cat ++ "/" ++ String.mk name := by
  induction fuel generalizing b cs with
  | zero => simp [scanMaql] at h
  | succ fuel ih =>
      cases cs with
      | nil => simp [scanMaql] at h
      | cons c rest =>
          simp only [scanMaql] at h
          split at h
          · exact ih _ _ h
          · cases hmc : tryMatch (c :: rest) with
            | none =>
                simp only [hmc] at h
                exact ih _ _ h
            | some pr =>
                obtain ⟨tok, rest3⟩ := pr
                simp only [hmc] at h
                rcases List.mem_cons.mp h with h | h
                · subst h
                  exact tryMatch_shape (c :: rest) r rest3 hmc
                · exact ih _ _ h

/-- C6: `extract_ids_from_maql` returns the `<category>/<name>` tokens of
the expression, category among fact/attribute/metric/label/dataset and
name alphanumeric/underscore, in left-to-right order with duplicates
preserved; evaluated on the spec's example and on a duplicate-token
example, and every output id has the required token shape. -/
theorem claim_C6_extract :
    extract_ids_from_maql "metric/total_sales + fact/unit_price - metric/discount" =
      ["metric/total_sales", "fact/unit_price", "metric/discount"] ∧
    extract_ids_from_maql "fact/a + fact/a" = ["fact/a", "fact/a"] ∧
    (∀ maql r : String, r ∈ extract_ids_from_maql maql →
      ∃ cat name, cat ∈ ["fact", "attribute", "metric", "label", "dataset"] ∧
        name ≠ [] ∧ name.all isWordChar = true ∧ r = cat ++ "/" ++ String.mk name) := by
  refine ⟨by decide, by decide, ?_⟩
  intro maql r h
  have hs := scanMaql_shape (maql.length + 1) false maql.toList r h
  rwa [show categories = ["fact", "attribute", "metric", "label", "dataset"] from rfl] at hs

/-- C6 witness: the token-shape conjunct at a concrete expression. -/
theorem claim_C6_witness :
    ∃ cat name, cat ∈ ["fact", "attribute", "metric", "label", "dataset"] ∧
      name ≠ [] ∧ name.all isWordChar = true ∧
      "fact/unit_price" = cat ++ "/" ++ String.mk name :=
  claim_C6_extract.2.2 "fact/unit_price * attribute/region" "fact/unit_price" (by decide)

/-- `startswith("metric/")` characterized as a string decomposition. -/
theorem pyStartsWith_metric_iff (r : String) :
    pyStartsWith r "metric/" = true ↔ ∃ nm : String, r = "metric/" ++ nm := by
  rw [pyStartsWith, List.isPrefixOf_iff_prefix]
  constructor
  · intro h
    obtain ⟨t, ht⟩ := h
    refine ⟨String.mk t, String.ext ?_⟩
    rw [String.data_append]
    exact ht.symm
  · rintro ⟨nm, rfl⟩
    exact ⟨nm.data, (String.data_append "metric/" nm).symm⟩

/-- C7: `has_metric_references` is true exactly when the extracted
reference list contains an id of category metric (an id of the form
`"metric/" ++ name`), and this boolean alone drives the phase split: with
no metric reference the document is updated by the non-dependent-metric
phase and untouched by the dependent-metric phase, and with a metric
reference the roles are exactly swapped. -/
theorem claim_C7_metric_split :
    (∀ maql : String, has_metric_references maql = true ↔
        ∃ r ∈ extract_ids_from_maql maql, ∃ nm : String, r = "metric/" ++ nm) ∧
    (∀ (llm : String → String) (data : Element) (c : Cache),
        (has_metric_references (getNestedStr data "content" "maql") = false →
          process_non_metric llm data c = stepElement llm data "non-metric" [] c ∧
          process_metric llm data c = (data, c, [])) ∧
        (has_metric_references (getNestedStr data "content" "maql") = true →
          process_non_metric llm data c = (data, c, []) ∧
          process_metric llm data c = stepElement llm data "metric" [] c)) := by
  constructor
  · intro maql
    rw [has_metric_references, List.any_eq_true]
    constructor
    · rintro ⟨r, hr, hs⟩
      exact ⟨r, hr, (pyStartsWith_metric_iff r).mp hs⟩
    · rintro ⟨r, hr, hnm⟩
      exact ⟨r, hr, (pyStartsWith_metric_iff r).mpr hnm⟩
  · intro llm data c
    constructor
    · intro hfalse
      constructor
      · simp only [process_non_metric]
        rw [if_neg (by rw [hfalse]; exact Bool.noConfusion)]
      · simp only [process_metric]
        rw [if_neg (by rw [hfalse]; exact Bool.noConfusion)]
    · intro htrue
      constructor
      · simp only [process_non_metric]
        rw [if_pos htrue]
      · simp only [process_metric]
        rw [if_pos htrue]

/-- C7 witness: the spec's two example expressions, and the phase split
evaluated on a concrete dependent metric document. -/
theorem claim_C7_witness :
    (∃ r ∈ extract_ids_from_maql "metric/total_sales + fact/unit_price - metric/discount",
        ∃ nm : String, r = "metric/" ++ nm) ∧
    process_non_metric (fun _ => "desc")
        [("id", .str "metric/b"),
         ("content", .obj [("maql", .str "SELECT metric/a + fact/y")])] [] =
      ([("id", .str "metric/b"),
        ("content", .obj [("maql", .str "SELECT metric/a + fact/y")])], [], []) ∧
    process_metric (fun _ => "desc")
        [("id", .str "metric/b"),
         ("content", .obj [("maql", .str "SELECT metric/a + fact/y")])] [] =
      stepElement (fun _ => "desc")
        [("id", .str "metric/b"),
         ("content", .obj [("maql", .str "SELECT metric/a + fact/y")])] "metric" [] [] := by
  refine ⟨(claim_C7_metric_split.1 _).mp (by decide), ?_, ?_⟩
  · exact ((claim_C7_metric_split.2 (fun _ => "desc")
      [("id", .str "metric/b"),
       ("content", .obj [("maql", .str "SELECT metric/a + fact/y")])] []).2 (by decide)).1
  · exact ((claim_C7_metric_split.2 (fun _ => "desc")
      [("id", .str "metric/b"),
       ("content", .obj [("maql", .str "SELECT metric/a + fact/y")])] []).2 (by decide)).2

/-- C8: `extract_ids_from_visualization_object` emits identifiers in
document order with duplicates preserved — per bucket item the direct
measure identifier, or for a previous-period measure every date-dimension
identifier followed by the base measure identifier, then per
relative-date filter its date-dimension identifier; a payload with no
recognized shape yields the empty list, never an error.  Evaluated on the
spec's previous-period payload, on a mixed payload showing the full
document order, and proved for every payload without bucket or filter
keys. -/
theorem claim_C8_viz_extract :
    extract_ids_from_visualization_object
        [("buckets", .arr [.obj [("items", .arr
          [.obj [("measure", .obj [("definition", .obj
            [("previousPeriodMeasure", .obj
              [("dateDataSets", .arr
                 [.obj [("dataSet", .obj [("identifier", .obj [("id", .str "dataset/date")])])]]),
               ("measureIdentifier", .str "metric/revenue")])])])]])]])] =
      .ok ["dataset/date", "metric/revenue"] ∧
    extract_ids_from_visualization_object
        [("buckets", .arr [.obj [("items", .arr
          [.obj [("measure", .obj [("definition", .obj [("measureDefinition", .obj
             [("item", .obj [("identifier", .obj [("id", .str "metric/m")])])])])])],
           .obj [("measure", .obj [("definition", .obj
             [("previousPeriodMeasure", .obj
               [("dateDataSets", .arr
                  [.obj [("dataSet", .obj [("identifier", .obj [("id", .str "dataset/date")])])]]),
                ("measureIdentifier", .str "metric/revenue")])])])]])]]),
         ("filters", .arr [.obj [("relativeDateFilter", .obj
           [("dataSet", .obj [("identifier", .obj [("id", .str "dataset/d2")])])])]])] =
      .ok ["metric/m", "dataset/date", "metric/revenue", "dataset/d2"] ∧
    (∀ content : Element, lookupField content "buckets" = none →
        lookupField content "filters" = none →
        extract_ids_from_visualization_object content = .ok []) := by
  refine ⟨rfl, rfl, ?_⟩
  intro content hb hf
  simp only [extract_ids_from_visualization_object, getListD, hb, hf, bind, Except.bind,
    pure, Except.pure]
  rfl

/-- C8 witness: a payload with neither buckets nor filters yields the
empty list without an error. -/
theorem claim_C8_witness :
    extract_ids_from_visualization_object [("title", .str "t")] = .ok [] :=
  claim_C8_viz_extract.2.2 [("title", .str "t")] rfl rfl

/-! ## Context-line structure of the prompt (for C9) -/

theorem intercalate_go_append (l : List String) (s a b : String) :
    String.intercalate.go (a ++ b) s l = a ++ String.intercalate.go b s l := by
  induction l generalizing b with
  | nil => rfl
  | cons x xs ih =>
      simp only [String.intercalate.go]
      rw [String.append_assoc a b s, String.append_assoc a (b ++ s) x, ← ih]

/-- Unfolding of the `"\n".join` context block: the first reference id's
line, then (when further ids follow) a newline and the remaining block —
one line per id, in extraction order. -/
theorem contextString_cons (c : Cache) (i : String) (ids : List String) :
    contextString c (i :: ids) =
      (i ++ ": " ++ ((lookupCache c (some i)).getD "No description available")) ++
        (if ids = [] then "" else "\n" ++ contextString c ids) := by
  cases ids with
  | nil =>
      simp [contextString, String.intercalate]
      rfl
  | cons j rest =>
      simp only [contextString, List.map_cons, String.intercalate, if_neg
        (List.cons_ne_nil j rest)]
      generalize (i ++ ": " ++ ((lookupCache c (some i)).getD "No description available")) = lineI
      generalize (j ++ ": " ++ ((lookupCache c (some j)).getD "No description available")) = lineJ
      generalize (List.map
        (fun i => i ++ ": " ++ ((lookupCache c (some i)).getD "No description available"))
        rest) = L
      calc String.intercalate.go lineI "\n" (lineJ :: L)
          = String.intercalate.go ((lineI ++ "\n") ++ lineJ) "\n" L := rfl
        _ = (lineI ++ "\n") ++ String.intercalate.go lineJ "\n" L :=
            intercalate_go_append L "\n" (lineI ++ "\n") lineJ
        _ = lineI ++ ("\n" ++ String.intercalate.go lineJ "\n" L) :=
            String.append_assoc lineI "\n" (String.intercalate.go lineJ "\n" L)

/-- C9: for visualization-object and dashboard prompts the built text
contains the context block — one line per extracted reference id, in
extraction order, of the form `"<id>: <cached description>"` when the id
is cached and `"<id>: No description available"` otherwise — and the
builder is a total function (it never fails or stalls on an uncached
reference). -/
theorem claim_C9_prompt_context :
    (∀ (data : Element) (c : Cache) (ids : List String),
        ∃ pre post, generate_prompt data "visualization object" c ids =
          pre ++ contextString c ids ++ post) ∧
    (∀ (data : Element) (c : Cache) (ids : List String),
        ∃ pre post, generate_prompt data "dashboard" c ids =
          pre ++ contextString c ids ++ post) ∧
    (∀ (c : Cache) (i : String) (ids : List String),
        contextString c (i :: ids) =
          (i ++ ": " ++ ((lookupCache c (some i)).getD "No description available")) ++
            (if ids = [] then "" else "\n" ++ contextString c ids)) ∧
    (∀ (c : Cache) (i d : String), lookupCache c (some i) = some d →
        i ++ ": " ++ ((lookupCache c (some i)).getD "No description available") =
          i ++ ": " ++ d) ∧
    (∀ (c : Cache) (i : String), lookupCache c (some i) = none →
        i ++ ": " ++ ((lookupCache c (some i)).getD "No description available") =
          i ++ ": " ++ "No description available") := by
  refine ⟨fun data c ids => ⟨_, _, rfl⟩, fun data c ids => ⟨_, _, rfl⟩,
    contextString_cons, ?_, ?_⟩
  · intro c i d h
    rw [h]
    rfl
  · intro c i h
    rw [h]
    rfl

/-- C9 witness: the context block of a concrete visualization prompt,
with one cached and one uncached reference line. -/
theorem claim_C9_witness :
    (∃ pre post, generate_prompt [("id", .str "v1"), ("title", .str "T")]
        "visualization object" [(some "m1", "D")] ["m1", "m2"] =
      pre ++ contextString [(some "m1", "D")] ["m1", "m2"] ++ post) ∧
    "m1" ++ ": " ++
        ((lookupCache [(some "m1", "D")] (some "m1")).getD "No description available") =
      "m1" ++ ": " ++ "D" ∧
    "m2" ++ ": " ++
        ((lookupCache [(some "m1", "D")] (some "m2")).getD "No description available") =
      "m2" ++ ": " ++ "No description available" :=
  ⟨claim_C9_prompt_context.1 [("id", .str "v1"), ("title", .str "T")]
      [(some "m1", "D")] ["m1", "m2"],
   claim_C9_prompt_context.2.2.2.1 [(some "m1", "D")] "m1" "D" rfl,
   claim_C9_prompt_context.2.2.2.2 [(some "m1", "D")] "m2" rfl⟩
